import Mathlib

/-!
# Municipal-Compliance: verification of the document pipeline and retrieval scorer

Shallow embedding of the core functions of the Municipal-Compliance repository
(Supabase edge functions, TypeScript) into Lean 4, together with theorems that
settle the frozen claims about the natural-language specification.

Modelling conventions:
* JavaScript numbers are modelled as exact rationals (`ℚ`); `NaN` is made
  explicit where it can arise (`Option ℚ`, with `none` standing for `NaN`).
* `Math.sqrt` is an abstract parameter (`sqrt : ℚ → ℚ`): the square root of a
  rational is in general irrational, so theorems quantify over the sqrt
  function where its value is irrelevant, and constrain it where it matters.
* Strings are processed as `List Char`; the regex fragments used by the source
  are implemented character-by-character with the exact semantics of the JS
  patterns they embed (each definition carries the original pattern).
* External collaborators (HTTP calls, the embedding service, MongoDB) are
  modelled as oracles / explicit state, following their documented contracts.
-/

namespace MunicipalCompliance

/-! ## JS string primitives -/

/-- The ASCII part of the JS regex class `\s` (space, tab, LF, CR, VT, FF).
`cleanText`, `trim` and the footer regex only meet this set on the repo's
ASCII inputs. -/
def jsWs (c : Char) : Bool :=
  c = ' ' || c = '\t' || c = '\n' || c = '\r' || c = '\x0b' || c = '\x0c'

/-- JS regex word character class `\w` = `[A-Za-z0-9_]`. -/
def jsWordChar (c : Char) : Bool :=
  ('a' ≤ c && c ≤ 'z') || ('A' ≤ c && c ≤ 'Z') || ('0' ≤ c && c ≤ '9') || c = '_'

/-- ASCII lower-casing, as performed by `String.prototype.toLowerCase` on the
ASCII inputs the repo manipulates. -/
def jsToLower (c : Char) : Char :=
  if 'A' ≤ c ∧ c ≤ 'Z' then Char.ofNat (c.toNat + 32) else c

/-- Case-insensitive character comparison (ASCII). -/
def ciEq (a b : Char) : Bool := jsToLower a = jsToLower b

/-- ASCII digit. -/
def jsDigit (c : Char) : Bool := '0' ≤ c && c ≤ '9'

/-! ## `cleanText` (reducto-parse/index.ts)

```ts
function cleanText(content: string): string {
  return content
    .replace(/\s+/g, " ")
    .replace(/Page\s+\d+\s+of\s+\d+/gi, "")
    .replace(/\n{3,}/g, "\n\n")
    .trim();
}
```
-/

/-- `content.replace(/\s+/g, " ")`: every maximal whitespace run becomes one
space. -/
def collapseWs : List Char → List Char
  | [] => []
  | c :: cs =>
    if jsWs c then ' ' :: collapseWs (cs.dropWhile jsWs)
    else c :: collapseWs cs
  termination_by l => l.length
  decreasing_by
    · simpa using Nat.lt_succ_of_le (List.dropWhile_sublist (l := cs) jsWs).length_le
    · simp

/-- Case-insensitive literal prefix: does `s` start with `lit` (ASCII-ci)?
Returns the remainder on success. -/
def stripCI : List Char → List Char → Option (List Char)
  | [], s => some s
  | _ :: _, [] => none
  | l :: ls, c :: cs => if ciEq l c then stripCI ls cs else none

/-- One mandatory-then-maximal run of characters satisfying `p` (regex `p+`
against a following character of a disjoint class, so greedy = maximal).
Returns the remainder on success. -/
def stripRun1 (p : Char → Bool) : List Char → Option (List Char)
  | [] => none
  | c :: cs => if p c then some (cs.dropWhile p) else none

/-- One attempt to match `/Page\s+\d+\s+of\s+\d+/i` at the head of the list;
returns the remainder after the match.  All adjacent classes of the pattern
are disjoint, so the greedy JS match is the maximal-munch match. -/
def matchFooter (s : List Char) : Option (List Char) :=
  (stripCI ['P','a','g','e'] s).bind fun s₁ =>
  (stripRun1 jsWs s₁).bind fun s₂ =>
  (stripRun1 jsDigit s₂).bind fun s₃ =>
  (stripRun1 jsWs s₃).bind fun s₄ =>
  (stripCI ['o','f'] s₄).bind fun s₅ =>
  (stripRun1 jsWs s₅).bind fun s₆ =>
  stripRun1 jsDigit s₆

theorem stripCI_length : ∀ (lit s r : List Char),
    stripCI lit s = some r → r.length + lit.length = s.length
  | [], s, r, h => by simpa [stripCI] using congrArg List.length (Option.some.inj h).symm
  | _ :: _, [], _, h => by simp [stripCI] at h
  | l :: ls, c :: cs, r, h => by
    by_cases hc : ciEq l c
    · have := stripCI_length ls cs r (by simpa [stripCI, hc] using h)
      simp [List.length_cons, ← this]; omega
    · simp [stripCI, hc] at h

theorem stripRun1_length (p : Char → Bool) : ∀ (s r : List Char),
    stripRun1 p s = some r → r.length < s.length
  | [], _, h => by simp [stripRun1] at h
  | c :: cs, r, h => by
    by_cases hc : p c
    · have : r = cs.dropWhile p := by
        have := (Option.some.inj (by simpa [stripRun1, hc] using h)).symm
        simpa using this
      subst this
      exact Nat.lt_succ_of_le (List.dropWhile_sublist (l := cs) p).length_le
    · simp [stripRun1, hc] at h

theorem matchFooter_length (s r : List Char) (h : matchFooter s = some r) :
    r.length < s.length := by
  unfold matchFooter at h
  obtain ⟨s₁, hb₁, h⟩ := Option.bind_eq_some.mp h
  obtain ⟨s₂, hb₂, h⟩ := Option.bind_eq_some.mp h
  obtain ⟨s₃, hb₃, h⟩ := Option.bind_eq_some.mp h
  obtain ⟨s₄, hb₄, h⟩ := Option.bind_eq_some.mp h
  obtain ⟨s₅, hb₅, h⟩ := Option.bind_eq_some.mp h
  obtain ⟨s₆, hb₆, h⟩ := Option.bind_eq_some.mp h
  have h₁ := stripCI_length _ _ _ hb₁
  have h₂ := stripRun1_length _ _ _ hb₂
  have h₃ := stripRun1_length _ _ _ hb₃
  have h₄ := stripRun1_length _ _ _ hb₄
  have h₅ := stripCI_length _ _ _ hb₅
  have h₆ := stripRun1_length _ _ _ hb₆
  have h₇ := stripRun1_length _ _ _ h
  simp only [List.length_cons, List.length_nil] at h₁ h₅
  omega

/-- Recursion skeleton of `removeFooters`, structurally recursive on a fuel
argument so that concrete inputs evaluate in the kernel.  Every step consumes
at least one character, so fuel equal to the string length suffices; the
fuel-0 case is unreachable from `removeFooters`. -/
def removeFootersAux : ℕ → List Char → List Char
  | 0, s => s
  | _ + 1, [] => []
  | fuel + 1, c :: cs =>
    match matchFooter (c :: cs) with
    | some rest => removeFootersAux fuel rest
    | none => c :: removeFootersAux fuel cs

/-- `content.replace(/Page\s+\d+\s+of\s+\d+/gi, "")`: single left-to-right
pass removing non-overlapping leftmost matches (the replacement text is not
rescanned, exactly as JS `replace` with the `g` flag). -/
def removeFooters (s : List Char) : List Char := removeFootersAux s.length s

theorem removeFootersAux_irrel : ∀ (f₁ f₂ : ℕ) (s : List Char),
    s.length ≤ f₁ → s.length ≤ f₂ → removeFootersAux f₁ s = removeFootersAux f₂ s := by
  intro f₁
  induction f₁ with
  | zero =>
    intro f₂ s h₁ _
    have : s = [] := List.length_eq_zero.mp (Nat.le_zero.mp h₁)
    subst this
    cases f₂ <;> rfl
  | succ f ih =>
    intro f₂ s h₁ h₂
    cases s with
    | nil => cases f₂ <;> rfl
    | cons c cs =>
      cases f₂ with
      | zero => simp at h₂
      | succ f' =>
        simp only [removeFootersAux]
        cases hm : matchFooter (c :: cs) with
        | some rest =>
          have hr := matchFooter_length _ _ hm
          simp only [List.length_cons] at hr h₁ h₂
          exact ih f' rest (by omega) (by omega)
        | none =>
          simp only [List.length_cons] at h₁ h₂
          rw [ih f' cs (by omega) (by omega)]

/-- Characteristic equation of `removeFooters` on a nonempty string: remove a
leftmost footer match and continue after it, or keep the head character and
continue on the tail. -/
theorem removeFooters_cons (c : Char) (cs : List Char) :
    removeFooters (c :: cs) =
      match matchFooter (c :: cs) with
      | some rest => removeFooters rest
      | none => c :: removeFooters cs := by
  show removeFootersAux (c :: cs).length (c :: cs) = _
  simp only [List.length_cons, removeFootersAux]
  cases hm : matchFooter (c :: cs) with
  | some rest =>
    have hr := matchFooter_length _ _ hm
    simp only [List.length_cons] at hr
    exact removeFootersAux_irrel _ _ rest (by omega) le_rfl
  | none => rfl

/-- `content.replace(/\n{3,}/g, "\n\n")`: a maximal run of three or more
newlines becomes exactly two. -/
def collapseNewlines : List Char → List Char
  | '\n' :: '\n' :: '\n' :: rest =>
    '\n' :: '\n' :: collapseNewlines (rest.dropWhile (· = '\n'))
  | c :: cs => c :: collapseNewlines cs
  | [] => []
  termination_by l => l.length
  decreasing_by
    · simpa using Nat.lt_succ_of_le (Nat.le_succ_of_le (Nat.le_succ_of_le
        (List.dropWhile_sublist (l := rest) (· = '\n')).length_le))
    · simp

/-- `String.prototype.trim`: strip leading and trailing whitespace. -/
def jsTrim (s : List Char) : List Char :=
  ((s.dropWhile jsWs).reverse.dropWhile jsWs).reverse

/-- `cleanText` (reducto-parse/index.ts): whitespace collapse, footer removal,
newline-run collapse, trim — in the source's order. -/
def cleanText (content : List Char) : List Char :=
  jsTrim (collapseNewlines (removeFooters (collapseWs content)))

/-! ## `quantizeEmbedding` (firecrawl-discover/index.ts, mongo-upsert handler)

```ts
function quantizeEmbedding(embedding: number[]): number[] {
  let min = Infinity; let max = -Infinity;
  for (const value of embedding) {
    if (value < min) min = value;
    if (value > max) max = value;
  }
  const range = max - min || 1;
  return embedding.map((value) => {
    const normalized = (value - min) / range;
    return Math.round(normalized * 255 - 128);
  });
}
```
`Math.round` rounds half toward `+∞`, which is Mathlib's `round` on `ℚ`.
On the empty vector the JS loop leaves `min = Infinity`/`max = -Infinity` and
the `map` produces `[]`; the model returns `[]` directly in that case. -/
def quantizeEmbedding : List ℚ → List ℤ
  | [] => []
  | v :: vs =>
    let mn := vs.foldl min v
    let mx := vs.foldl max v
    let range := if mx - mn = 0 then 1 else mx - mn
    (v :: vs).map fun value => round ((value - mn) / range * 255 - 128)

/-! ### Facts about the fold-based min/max of `quantizeEmbedding` -/

theorem foldl_min_mem {α : Type} [LinearOrder α] (vs : List α) :
    ∀ v : α, vs.foldl min v ∈ v :: vs := by
  induction vs with
  | nil => simp
  | cons w ws ih =>
    intro v
    simp only [List.foldl_cons]
    rcases min_choice v w with hm | hm <;> rw [hm]
    · exact List.mem_cons.mpr (Or.imp_right (List.mem_cons_of_mem w) (List.mem_cons.mp (ih v)))
    · exact List.mem_cons_of_mem v (ih w)

theorem foldl_min_le {α : Type} [LinearOrder α] (vs : List α) :
    ∀ v x : α, x ∈ v :: vs → vs.foldl min v ≤ x := by
  induction vs with
  | nil =>
    intro v x hx
    have : x = v := by simpa using hx
    simp [this]
  | cons w ws ih =>
    intro v x hx
    simp only [List.foldl_cons]
    rcases List.mem_cons.mp hx with h₁ | h₂
    · subst h₁; exact le_trans (ih _ _ (List.mem_cons_self _ _)) (min_le_left _ _)
    rcases List.mem_cons.mp h₂ with h₃ | h₄
    · subst h₃; exact le_trans (ih _ _ (List.mem_cons_self _ _)) (min_le_right _ _)
    · exact ih _ x (List.mem_cons_of_mem _ h₄)

theorem foldl_max_mem {α : Type} [LinearOrder α] (vs : List α) :
    ∀ v : α, vs.foldl max v ∈ v :: vs := by
  induction vs with
  | nil => simp
  | cons w ws ih =>
    intro v
    simp only [List.foldl_cons]
    rcases max_choice v w with hm | hm <;> rw [hm]
    · exact List.mem_cons.mpr (Or.imp_right (List.mem_cons_of_mem w) (List.mem_cons.mp (ih v)))
    · exact List.mem_cons_of_mem v (ih w)

theorem le_foldl_max {α : Type} [LinearOrder α] (vs : List α) :
    ∀ v x : α, x ∈ v :: vs → x ≤ vs.foldl max v := by
  induction vs with
  | nil =>
    intro v x hx
    have : x = v := by simpa using hx
    simp [this]
  | cons w ws ih =>
    intro v x hx
    simp only [List.foldl_cons]
    rcases List.mem_cons.mp hx with h₁ | h₂
    · subst h₁; exact le_trans (le_max_left _ _) (ih _ _ (List.mem_cons_self _ _))
    rcases List.mem_cons.mp h₂ with h₃ | h₄
    · subst h₃; exact le_trans (le_max_right _ _) (ih _ _ (List.mem_cons_self _ _))
    · exact ih _ x (List.mem_cons_of_mem _ h₄)

theorem foldl_min_const {α : Type} [LinearOrder α] :
    ∀ (n : ℕ) (q : α), (List.replicate n q).foldl min q = q
  | 0, q => rfl
  | n + 1, q => by
    simpa [List.replicate, min_self] using foldl_min_const n q

theorem foldl_max_const {α : Type} [LinearOrder α] :
    ∀ (n : ℕ) (q : α), (List.replicate n q).foldl max q = q
  | 0, q => rfl
  | n + 1, q => by
    simpa [List.replicate, max_self] using foldl_max_const n q

/-- Output entries of the int8 rescaling are within the signed 8-bit range
when the normalized value lies in `[0, 1]`. -/
theorem round_rescale_mem_int8 (t : ℚ) (h₀ : 0 ≤ t) (h₁ : t ≤ 1) :
    -128 ≤ round (t * 255 - 128) ∧ round (t * 255 - 128) ≤ 127 := by
  rw [round_eq]
  constructor
  · rw [Int.le_floor]
    push_cast
    nlinarith
  · have h : (t * 255 - 128 + 1 / 2 : ℚ) < ((128 : ℤ) : ℚ) := by push_cast; nlinarith
    have h' := Int.floor_lt.mpr h
    linarith

/-- C4: for every input vector the quantizer computes min and max over its
components, substitutes range 1 when max equals min, maps each component `v`
to `round(((v - min) / range) * 255 - 128)`, and returns a vector of the same
length; a vector of all-identical finite values quantizes, without error, to
the defined constant `-128` everywhere, and every output entry lies in the
signed 8-bit range `[-128, 127]`. -/
theorem C4_quantizeEmbedding_range_safety :
    (∀ l : List ℚ, (quantizeEmbedding l).length = l.length) ∧
    (∀ (v : ℚ) (vs : List ℚ), ∃ mn mx : ℚ,
      mn ∈ v :: vs ∧ mx ∈ v :: vs ∧
      (∀ x ∈ v :: vs, mn ≤ x ∧ x ≤ mx) ∧
      quantizeEmbedding (v :: vs) =
        (v :: vs).map fun x =>
          round ((x - mn) / (if mx = mn then 1 else mx - mn) * 255 - 128)) ∧
    (∀ (n : ℕ) (q : ℚ), quantizeEmbedding (List.replicate n q) = List.replicate n (-128)) ∧
    (∀ (l : List ℚ) (y : ℤ), y ∈ quantizeEmbedding l → -128 ≤ y ∧ y ≤ 127) := by
  have key : ∀ (v : ℚ) (vs : List ℚ),
      quantizeEmbedding (v :: vs) =
        (v :: vs).map fun x =>
          round ((x - vs.foldl min v) /
            (if vs.foldl max v = vs.foldl min v then 1 else vs.foldl max v - vs.foldl min v)
            * 255 - 128) := by
    intro v vs
    simp only [quantizeEmbedding, sub_eq_zero]
  refine ⟨?_, ?_, ?_, ?_⟩
  · intro l
    cases l with
    | nil => rfl
    | cons v vs => simp [quantizeEmbedding]
  · intro v vs
    exact ⟨vs.foldl min v, vs.foldl max v, foldl_min_mem vs v, foldl_max_mem vs v,
      fun x hx => ⟨foldl_min_le vs v x hx, le_foldl_max vs v x hx⟩, key v vs⟩
  · intro n q
    cases n with
    | zero => rfl
    | succ m =>
      rw [List.replicate_succ, key q (List.replicate m q), foldl_min_const, foldl_max_const]
      have hval : round ((q - q) / (if q = q then 1 else q - q) * 255 - 128 : ℚ) = -128 := by
        norm_num [round_eq]
      rw [List.map_cons, List.map_replicate, hval, List.replicate_succ]
  · intro l y hy
    cases l with
    | nil => simp [quantizeEmbedding] at hy
    | cons v vs =>
      rw [key v vs] at hy
      obtain ⟨x, hx, rfl⟩ := List.mem_map.mp hy
      set mn := vs.foldl min v with hmn
      set mx := vs.foldl max v with hmx
      have hxlo : mn ≤ x := foldl_min_le vs v x hx
      have hxhi : x ≤ mx := le_foldl_max vs v x hx
      by_cases heq : mx = mn
      · have hx' : x = mn := le_antisymm (heq ▸ hxhi) hxlo
        refine round_rescale_mem_int8 _ ?_ ?_ <;> simp [heq, hx']
      · have hlt : mn < mx :=
          lt_of_le_of_ne (le_trans (foldl_min_le vs v v (by simp))
            (le_foldl_max vs v v (by simp))) (Ne.symm heq)
        refine round_rescale_mem_int8 _ ?_ ?_
        · simp only [if_neg heq]
          exact div_nonneg (by linarith) (by linarith)
        · simp only [if_neg heq]
          rw [div_le_one (by linarith)]
          linarith

/-! ### Whitespace facts about `cleanText` -/

/-- Claim-side predicate: the string has no two consecutive whitespace
characters. -/
def NoDoubleWs (l : List Char) : Prop :=
  List.Chain' (fun a b => ¬(jsWs a = true ∧ jsWs b = true)) l

instance (l : List Char) : Decidable (NoDoubleWs l) :=
  inferInstanceAs (Decidable (List.Chain' _ l))

theorem head?_dropWhile_not {α : Type} (p : α → Bool) :
    ∀ (l : List α) (c : α), (l.dropWhile p).head? = some c → p c = false := by
  intro l
  induction l with
  | nil => intro c h; simp [List.dropWhile] at h
  | cons a as ih =>
    intro c h
    by_cases ha : p a
    · exact ih c (by simpa [List.dropWhile, ha] using h)
    · have : a = c := by simpa [List.dropWhile, ha] using h
      subst this
      simpa using ha

theorem getLast?_dropWhile_of_ne_nil {α : Type} (p : α → Bool) (l : List α)
    (h : l.dropWhile p ≠ []) : (l.dropWhile p).getLast? = l.getLast? := by
  obtain ⟨pre, hpre⟩ := List.dropWhile_suffix (l := l) p
  have hsome : (l.dropWhile p).getLast?.isSome := List.getLast?_isSome.mpr h
  obtain ⟨b, hb⟩ := Option.isSome_iff_exists.mp hsome
  have happ := @List.getLast?_append _ pre (l.dropWhile p)
  rw [hpre, hb] at happ
  rw [hb, happ]
  rfl

theorem collapseWs_ws_space :
    ∀ (s : List Char), ∀ c ∈ collapseWs s, jsWs c = true → c = ' ' := by
  intro s
  induction s using collapseWs.induct with
  | case1 => simp [collapseWs]
  | case2 c cs hc ih =>
    intro d hd hwd
    rw [collapseWs, if_pos hc] at hd
    rcases List.mem_cons.mp hd with h | h
    · exact h
    · exact ih d h hwd
  | case3 c cs hc ih =>
    intro d hd hwd
    rw [collapseWs, if_neg hc] at hd
    rcases List.mem_cons.mp hd with h | h
    · subst h; simp [hwd] at hc
    · exact ih d h hwd

theorem stripCI_suffix : ∀ (lit s r : List Char), stripCI lit s = some r → r <:+ s
  | [], s, r, h => by
    have : s = r := Option.some.inj (by simpa [stripCI] using h)
    exact this ▸ List.suffix_refl r
  | _ :: _, [], _, h => by simp [stripCI] at h
  | l :: ls, c :: cs, r, h => by
    by_cases hc : ciEq l c
    · exact (stripCI_suffix ls cs r (by simpa [stripCI, hc] using h)).trans
        (List.suffix_cons c cs)
    · simp [stripCI, hc] at h

theorem stripRun1_suffix (p : Char → Bool) :
    ∀ (s r : List Char), stripRun1 p s = some r → r <:+ s
  | [], _, h => by simp [stripRun1] at h
  | c :: cs, r, h => by
    by_cases hc : p c
    · have : r = cs.dropWhile p := (Option.some.inj (by simpa [stripRun1, hc] using h)).symm
      exact this ▸ (List.dropWhile_suffix p).trans (List.suffix_cons c cs)
    · simp [stripRun1, hc] at h

theorem matchFooter_suffix (s r : List Char) (h : matchFooter s = some r) : r <:+ s := by
  unfold matchFooter at h
  obtain ⟨s₁, hb₁, h⟩ := Option.bind_eq_some.mp h
  obtain ⟨s₂, hb₂, h⟩ := Option.bind_eq_some.mp h
  obtain ⟨s₃, hb₃, h⟩ := Option.bind_eq_some.mp h
  obtain ⟨s₄, hb₄, h⟩ := Option.bind_eq_some.mp h
  obtain ⟨s₅, hb₅, h⟩ := Option.bind_eq_some.mp h
  obtain ⟨s₆, hb₆, h⟩ := Option.bind_eq_some.mp h
  have t₆ := (stripRun1_suffix _ _ _ h).trans (stripRun1_suffix _ _ _ hb₆)
  have t₄ := (t₆.trans (stripCI_suffix _ _ _ hb₅)).trans (stripRun1_suffix _ _ _ hb₄)
  have t₂ := (t₄.trans (stripRun1_suffix _ _ _ hb₃)).trans (stripRun1_suffix _ _ _ hb₂)
  exact t₂.trans (stripCI_suffix _ _ _ hb₁)

theorem removeFootersAux_subset : ∀ (f : ℕ) (s : List Char), removeFootersAux f s ⊆ s := by
  intro f
  induction f with
  | zero => intro s; exact fun d hd => hd
  | succ f ih =>
    intro s
    cases s with
    | nil => exact fun d hd => hd
    | cons c cs =>
      simp only [removeFootersAux]
      cases hm : matchFooter (c :: cs) with
      | some rest => exact fun d hd => (matchFooter_suffix _ _ hm).subset (ih rest hd)
      | none => exact List.cons_subset_cons c (ih cs)

theorem removeFooters_subset (s : List Char) : removeFooters s ⊆ s :=
  removeFootersAux_subset s.length s

theorem collapseNewlines_cons_ne (c : Char) (cs : List Char) (hne : c ≠ '\n') :
    collapseNewlines (c :: cs) = c :: collapseNewlines cs := by
  rw [collapseNewlines.eq_def]
  split
  · rename_i rest heq
    injection heq with h₁ h₂
    exact absurd h₁ hne
  · rename_i c' cs' hexcl heq
    injection heq with h₁ h₂
    rw [h₁, h₂]
  · rename_i heq
    simp at heq

theorem collapseNewlines_of_no_newline :
    ∀ s : List Char, (∀ c ∈ s, c ≠ '\n') → collapseNewlines s = s := by
  intro s
  induction s with
  | nil => intro _; rw [collapseNewlines.eq_def]
  | cons c cs ih =>
    intro hno
    rw [collapseNewlines_cons_ne c cs (hno c (by simp)),
      ih fun d hd => hno d (List.mem_cons_of_mem c hd)]

theorem collapseWs_head_not_ws (s : List Char)
    (hs : ∀ d, s.head? = some d → jsWs d = false) :
    ∀ b, (collapseWs s).head? = some b → jsWs b = false := by
  cases s with
  | nil => intro b hb; simp [collapseWs] at hb
  | cons c cs =>
    intro b hb
    have hc : jsWs c = false := hs c rfl
    rw [collapseWs, if_neg (by simp [hc])] at hb
    have : c = b := by simpa using hb
    exact this ▸ hc

theorem collapseWs_noDouble : ∀ s : List Char, NoDoubleWs (collapseWs s) := by
  intro s
  induction s using collapseWs.induct with
  | case1 => simp [collapseWs, NoDoubleWs]
  | case2 c cs hc ih =>
    rw [NoDoubleWs, collapseWs, if_pos hc]
    refine List.chain'_cons'.mpr ⟨?_, ih⟩
    intro b hb
    have : jsWs b = false :=
      collapseWs_head_not_ws _ (fun d hd => head?_dropWhile_not jsWs cs d hd) b hb
    simp [this]
  | case3 c cs hc ih =>
    rw [NoDoubleWs, collapseWs, if_neg hc]
    refine List.chain'_cons'.mpr ⟨?_, ih⟩
    intro b _
    simp [hc]

theorem noDoubleWs_reverse {l : List Char} (h : NoDoubleWs l) : NoDoubleWs l.reverse := by
  rw [NoDoubleWs, List.chain'_reverse]
  exact h.imp fun a b hab => fun ⟨x, y⟩ => hab ⟨y, x⟩

theorem noDoubleWs_jsTrim {l : List Char} (h : NoDoubleWs l) : NoDoubleWs (jsTrim l) := by
  rw [jsTrim]
  exact noDoubleWs_reverse ((noDoubleWs_reverse
    (h.suffix (List.dropWhile_suffix jsWs))).suffix (List.dropWhile_suffix jsWs))

theorem jsTrim_subset (l : List Char) : jsTrim l ⊆ l := by
  intro c hc
  rw [jsTrim] at hc
  rw [List.mem_reverse] at hc
  have h₁ := (List.dropWhile_suffix (l := (l.dropWhile jsWs).reverse) jsWs).subset hc
  rw [List.mem_reverse] at h₁
  exact (List.dropWhile_suffix (l := l) jsWs).subset h₁

theorem head?_jsTrim_not_ws (l : List Char) (c : Char)
    (h : (jsTrim l).head? = some c) : jsWs c = false := by
  rw [jsTrim, List.head?_reverse] at h
  have hne : (l.dropWhile jsWs).reverse.dropWhile jsWs ≠ [] := by
    intro h0
    rw [h0] at h
    simp at h
  rw [getLast?_dropWhile_of_ne_nil jsWs (l.dropWhile jsWs).reverse hne,
    List.getLast?_reverse] at h
  exact head?_dropWhile_not jsWs l c h

theorem getLast?_jsTrim_not_ws (l : List Char) (c : Char)
    (h : (jsTrim l).getLast? = some c) : jsWs c = false := by
  rw [jsTrim, List.getLast?_reverse] at h
  exact head?_dropWhile_not jsWs _ c h

/-- On a string whose whitespace has already been collapsed, the two
remaining `cleanText` stages before `trim` do nothing but remove footers. -/
theorem cleanText_eq_trim_removeFooters (s : List Char) :
    cleanText s = jsTrim (removeFooters (collapseWs s)) := by
  rw [cleanText, collapseNewlines_of_no_newline]
  intro c hc
  intro hnl
  have hws : jsWs c = true := by rw [hnl]; rfl
  have := collapseWs_ws_space s c (removeFooters_subset _ hc) hws
  rw [hnl] at this
  exact absurd this (by decide)

/-- C10 (amended): `cleanText` yields a string with no leading or trailing
whitespace in which every whitespace character is a plain space (in
particular no newline survives); whitespace runs of length ≥ 2 can occur,
but only where a `Page N of M` footer was excised — on any input in which
the footer-removal pass matches nothing, no two consecutive whitespace
characters remain. -/
theorem C10_cleanText_whitespace :
    (∀ s : List Char, ∀ c ∈ cleanText s, jsWs c = true → c = ' ') ∧
    (∀ (s : List Char) (c : Char), (cleanText s).head? = some c → jsWs c = false) ∧
    (∀ (s : List Char) (c : Char), (cleanText s).getLast? = some c → jsWs c = false) ∧
    (∀ s : List Char, removeFooters (collapseWs s) = collapseWs s →
      NoDoubleWs (cleanText s)) := by
  refine ⟨?_, ?_, ?_, ?_⟩
  · intro s c hc hws
    rw [cleanText_eq_trim_removeFooters] at hc
    exact collapseWs_ws_space s c (removeFooters_subset _ (jsTrim_subset _ hc)) hws
  · intro s c hc
    rw [cleanText_eq_trim_removeFooters] at hc
    exact head?_jsTrim_not_ws _ c hc
  · intro s c hc
    rw [cleanText_eq_trim_removeFooters] at hc
    exact getLast?_jsTrim_not_ws _ c hc
  · intro s hid
    rw [cleanText_eq_trim_removeFooters, hid]
    exact noDoubleWs_jsTrim (collapseWs_noDouble s)

/-- C10 counterexample: removing an interior `Page 1 of 2` footer leaves two
consecutive spaces, so the claim that every whitespace run in the output is a
single space is false. -/
theorem C10_counterexample_double_space :
    cleanText ("a Page 1 of 2 b".data) = "a  b".data ∧
    ¬ NoDoubleWs (cleanText ("a Page 1 of 2 b".data)) := by
  have hval : cleanText ("a Page 1 of 2 b".data) = "a  b".data := by
    simp only [cleanText, jsTrim]
    rw [show collapseWs ("a Page 1 of 2 b".data) = "a Page 1 of 2 b".data by
      simp [collapseWs, jsWs]]
    rw [show removeFooters ("a Page 1 of 2 b".data) = "a  b".data from by decide]
    rw [show collapseNewlines ("a  b".data) = "a  b".data by simp [collapseNewlines]]
    decide
  refine ⟨hval, ?_⟩
  rw [hval]
  intro h
  have h' : List.Chain' (fun a b => ¬(jsWs a = true ∧ jsWs b = true))
      ('a' :: ' ' :: ' ' :: 'b' :: []) := h
  exact (List.chain'_cons.mp (List.chain'_cons.mp h').2).1 ⟨rfl, rfl⟩

/-- C10 witness: instantiation of the amended theorem at a concrete input on
which the footer pass matches nothing: the output of `cleanText` then has no
two consecutive whitespace characters. -/
theorem C10_witness :
    removeFooters (collapseWs (" ab \n cd ".data)) = collapseWs (" ab \n cd ".data) ∧
    NoDoubleWs (cleanText (" ab \n cd ".data)) := by
  have h : removeFooters (collapseWs (" ab \n cd ".data)) = collapseWs (" ab \n cd ".data) := by
    rw [show collapseWs (" ab \n cd ".data) = " ab cd ".data by simp [collapseWs, jsWs]]
    decide
  exact ⟨h, C10_cleanText_whitespace.2.2.2 _ h⟩

/-! ## Retrieval scorer (mongo-upsert handler, firecrawl-discover/index.ts)

```ts
const cosineSim = (a: number[], b: number[]): number => {
  if (!a || !b || a.length !== b.length) return 0;
  let dot = 0, magA = 0, magB = 0;
  for (let i = 0; i < a.length; i++) {
    dot += a[i] * b[i]; magA += a[i] * a[i]; magB += b[i] * b[i];
  }
  return dot / (Math.sqrt(magA) * Math.sqrt(magB));
};
documents = allDocs
  .map(doc => ({ ...doc, score: cosineSim(query_embedding, doc.embedding) }))
  .filter(doc => doc.score >= min_score)
  .sort((a, b) => (b.score) - (a.score))
  .slice(0, limit);
```
-/

/-- Rectangle in page points (`_shared/types.ts`, `BoundingBox`). -/
structure BBox where
  left : ℚ
  top : ℚ
  width : ℚ
  height : ℚ
deriving DecidableEq

/-- A stored chunk record as read back from the `document_chunks` collection
(`ZoningDocument` in `_shared/types.ts`). -/
structure StoredDoc where
  _id : String
  text : String
  embedding : List ℚ
  file_number : String
  source_url : String
  page_number : ℚ
  bbox : BBox
  chunk_index : ℚ
  metadata : List (String × String)
deriving DecidableEq

/-- The summation loop of `cosineSim`: `dot += a[i] * b[i]` over the common
indices (the loop only runs when the lengths agree). -/
def dotProduct : List ℚ → List ℚ → ℚ
  | a :: as, b :: bs => a * b + dotProduct as bs
  | _, _ => 0

/-- `cosineSim` with `Math.sqrt` abstracted as `sqrt : ℚ → ℚ` (exact square
roots of rationals are in general irrational).  `none` models JS `NaN`: when
the denominator is `0` and the square-root function is genuine, both factors
come from zero magnitudes, forcing `dot = 0` and hence `0/0 = NaN` in JS.
The `!a || !b` null guard is vacuous for actual arrays (an empty array is
truthy), so only the length test is modelled. -/
def cosineSim (sqrt : ℚ → ℚ) (a b : List ℚ) : Option ℚ :=
  if a.length ≠ b.length then some 0
  else
    let dot := dotProduct a b
    let magA := dotProduct a a
    let magB := dotProduct b b
    if sqrt magA * sqrt magB = 0 then none
    else some (dot / (sqrt magA * sqrt magB))

/-- The Mongo `find` filter of `handleSearch`: restrict by `file_number` only
when a nonempty `file_numbers` list was given (stored docs always carry an
`embedding` field, so `embedding: {$exists: true}` is a no-op on this model). -/
def searchFilter (fileNumbers : Option (List String)) (docs : List StoredDoc) :
    List StoredDoc :=
  match fileNumbers with
  | some l => if l.isEmpty then docs else docs.filter fun d => l.contains d.file_number
  | none => docs

/-- `.filter(doc => doc.score >= min_score)`: a `NaN` score (`none`) fails
every `>=` comparison in JS. -/
def passesMin (minScore : ℚ) (p : StoredDoc × Option ℚ) : Bool :=
  match p.2 with
  | some v => minScore ≤ v
  | none => false

/-- Strict comparison used by the sort comparator `(a, b) => b.score - a.score`:
`scoreLt p q` means the comparator orders `q` strictly before `p`.  When either
score is `NaN` the comparator returns `NaN`, which `Array.prototype.sort`
treats as 0 (equal); such elements cannot occur after the `min_score` filter. -/
def scoreLt (p q : StoredDoc × Option ℚ) : Bool :=
  match p.2, q.2 with
  | some a, some b => a < b
  | _, _ => false

/-- Stable insertion: `x` goes before the first element strictly below it,
after every earlier element with an equal-or-higher score. -/
def insertStable {α : Type} (lt : α → α → Bool) (x : α) : List α → List α
  | [] => [x]
  | y :: ys => if lt y x then x :: y :: ys else y :: insertStable lt x ys

/-- `Array.prototype.sort` with a consistent comparator is specified to be
stable; stable sorting by descending score is modelled by left-to-right
stable insertion. -/
def sortByScoreDesc (l : List (StoredDoc × Option ℚ)) : List (StoredDoc × Option ℚ) :=
  l.foldl (fun acc x => insertStable scoreLt x acc) []

/-- The scored candidate set of `handleSearch` after thresholding: candidates
(filtered, capped at 500) scored against the query, keeping those with
`score >= min_score`. -/
def searchScored (sqrt : ℚ → ℚ) (docs : List StoredDoc) (queryEmbedding : List ℚ)
    (fileNumbers : Option (List String)) (minScore : ℚ) : List (StoredDoc × Option ℚ) :=
  (((searchFilter fileNumbers docs).take 500).map
    fun d => (d, cosineSim sqrt queryEmbedding d.embedding)).filter (passesMin minScore)

/-- The ranked result list before projection: sort descending (stable) and
`slice(0, limit)`. -/
def searchRanked (sqrt : ℚ → ℚ) (docs : List StoredDoc) (queryEmbedding : List ℚ)
    (fileNumbers : Option (List String)) (lim : ℕ) (minScore : ℚ) :
    List (StoredDoc × Option ℚ) :=
  (sortByScoreDesc (searchScored sqrt docs queryEmbedding fileNumbers minScore)).take lim

/-- `{document, score}` pair of the search response; the returned document's
embedding is emptied (`embedding: []`). -/
structure VectorSearchResult where
  document : StoredDoc
  score : Option ℚ
deriving DecidableEq

/-- `handleSearch` (mongo-upsert handler), from candidate retrieval to the
response's result array. -/
def handleSearch (sqrt : ℚ → ℚ) (docs : List StoredDoc) (queryEmbedding : List ℚ)
    (fileNumbers : Option (List String)) (lim : ℕ) (minScore : ℚ) :
    List VectorSearchResult :=
  (searchRanked sqrt docs queryEmbedding fileNumbers lim minScore).map
    fun p => { document := { p.1 with embedding := [] }, score := p.2 }

/-! ### Order-theoretic facts about the descending stable sort -/

theorem scoreLt_asymm (p q : StoredDoc × Option ℚ) (h : scoreLt p q = true) :
    scoreLt q p = false := by
  unfold scoreLt at h ⊢
  cases hp : p.2 <;> cases hq : q.2 <;> simp [hp, hq] at h ⊢
  linarith

theorem scoreLt_negtrans (x y z : StoredDoc × Option ℚ)
    (h₁ : scoreLt y x = true) (h₂ : scoreLt y z = false) : scoreLt x z = false := by
  unfold scoreLt at h₁ h₂ ⊢
  cases hx : x.2 <;> cases hy : y.2 <;> cases hz : z.2 <;>
    simp [hx, hy, hz] at h₁ h₂ ⊢
  linarith

theorem insertStable_perm {α : Type} (lt : α → α → Bool) (x : α) :
    ∀ acc : List α, List.Perm (insertStable lt x acc) (x :: acc) := by
  intro acc
  induction acc with
  | nil => rfl
  | cons y ys ih =>
    rw [insertStable]
    by_cases hlt : lt y x
    · rw [if_pos hlt]
    · rw [if_neg hlt]
      exact (ih.cons y).trans (List.Perm.swap x y ys)

theorem foldl_insertStable_perm :
    ∀ (xs acc : List (StoredDoc × Option ℚ)),
      List.Perm (xs.foldl (fun a x => insertStable scoreLt x a) acc) (acc ++ xs) := by
  intro xs
  induction xs with
  | nil => intro acc; simp
  | cons x xs ih =>
    intro acc
    rw [List.foldl_cons]
    exact ((ih (insertStable scoreLt x acc)).trans
      (((insertStable_perm scoreLt x acc).append_right xs).trans
        List.perm_middle.symm))

theorem sortByScoreDesc_perm (l : List (StoredDoc × Option ℚ)) :
    List.Perm (sortByScoreDesc l) l := by
  simpa using foldl_insertStable_perm l []

theorem insertStable_pairwise (x : StoredDoc × Option ℚ)
    (acc : List (StoredDoc × Option ℚ))
    (h : acc.Pairwise fun a b => scoreLt a b = false) :
    (insertStable scoreLt x acc).Pairwise fun a b => scoreLt a b = false := by
  induction acc with
  | nil => simp [insertStable]
  | cons y ys ih =>
    rw [List.pairwise_cons] at h
    obtain ⟨hy, hys⟩ := h
    rw [insertStable]
    by_cases hlt : scoreLt y x
    · rw [if_pos hlt, List.pairwise_cons]
      refine ⟨?_, List.pairwise_cons.mpr ⟨hy, hys⟩⟩
      intro z hz
      rcases List.mem_cons.mp hz with rfl | hz'
      · exact scoreLt_asymm _ _ hlt
      · exact scoreLt_negtrans x y z hlt (hy z hz')
    · rw [if_neg hlt, List.pairwise_cons]
      refine ⟨?_, ih hys⟩
      intro z hz
      rcases List.mem_cons.mp ((insertStable_perm scoreLt x ys).mem_iff.mp hz) with rfl | hz'
      · exact Bool.not_eq_true _ ▸ (by simpa using hlt)
      · exact hy z hz'

theorem foldl_insertStable_pairwise :
    ∀ (xs acc : List (StoredDoc × Option ℚ)),
      (acc.Pairwise fun a b => scoreLt a b = false) →
      ((xs.foldl (fun a x => insertStable scoreLt x a) acc).Pairwise
        fun a b => scoreLt a b = false) := by
  intro xs
  induction xs with
  | nil => intro acc h; exact h
  | cons x xs ih =>
    intro acc h
    rw [List.foldl_cons]
    exact ih _ (insertStable_pairwise x acc h)

theorem sortByScoreDesc_pairwise (l : List (StoredDoc × Option ℚ)) :
    (sortByScoreDesc l).Pairwise fun a b => scoreLt a b = false :=
  foldl_insertStable_pairwise l [] (List.Pairwise.nil)

theorem insertStable_filter_pos (v : ℚ) (x : StoredDoc × Option ℚ)
    (acc : List (StoredDoc × Option ℚ)) (hx : x.2 = some v)
    (hs : acc.Pairwise fun a b => scoreLt a b = false) :
    (insertStable scoreLt x acc).filter (fun p => decide (p.2 = some v)) =
      acc.filter (fun p => decide (p.2 = some v)) ++ [x] := by
  induction acc with
  | nil => simp [insertStable, hx]
  | cons y ys ih =>
    rw [List.pairwise_cons] at hs
    obtain ⟨hy, hys⟩ := hs
    rw [insertStable]
    by_cases hlt : scoreLt y x
    · rw [if_pos hlt]
      have hvx : ∀ z ∈ y :: ys, ¬ z.2 = some v := by
        intro z hz hzv
        rcases List.mem_cons.mp hz with rfl | hz'
        · unfold scoreLt at hlt
          rw [hzv, hx] at hlt
          exact absurd (of_decide_eq_true hlt) (lt_irrefl v)
        · have hyz := hy z hz'
          unfold scoreLt at hlt hyz
          cases hyv : y.2 with
          | none => rw [hyv] at hlt; simp at hlt
          | some b =>
            rw [hyv, hx] at hlt
            rw [hyv, hzv] at hyz
            simp at hlt hyz
            exact absurd hlt (not_lt.mpr hyz)
      have hnil : (y :: ys).filter (fun p => decide (p.2 = some v)) = [] := by
        rw [List.filter_eq_nil_iff]
        intro z hz
        simpa using hvx z hz
      rw [List.filter_cons]
      simp [hx, hnil]
    · rw [if_neg hlt]
      by_cases hyv : y.2 = some v <;>
        simp [List.filter_cons, hyv, ih hys]

theorem insertStable_filter_neg (v : ℚ) (x : StoredDoc × Option ℚ)
    (acc : List (StoredDoc × Option ℚ)) (hx : x.2 ≠ some v) :
    (insertStable scoreLt x acc).filter (fun p => decide (p.2 = some v)) =
      acc.filter (fun p => decide (p.2 = some v)) := by
  induction acc with
  | nil => simp [insertStable, hx]
  | cons y ys ih =>
    rw [insertStable]
    by_cases hlt : scoreLt y x
    · rw [if_pos hlt, List.filter_cons]
      simp [hx]
    · rw [if_neg hlt, List.filter_cons, List.filter_cons]
      rw [ih]

theorem foldl_insertStable_filter (v : ℚ) :
    ∀ (xs acc : List (StoredDoc × Option ℚ)),
      (acc.Pairwise fun a b => scoreLt a b = false) →
      (xs.foldl (fun a x => insertStable scoreLt x a) acc).filter
          (fun p => decide (p.2 = some v)) =
        acc.filter (fun p => decide (p.2 = some v)) ++
          xs.filter (fun p => decide (p.2 = some v)) := by
  intro xs
  induction xs with
  | nil => intro acc _; simp
  | cons x xs ih =>
    intro acc hacc
    rw [List.foldl_cons, ih _ (insertStable_pairwise x acc hacc), List.filter_cons]
    by_cases hx : x.2 = some v
    · rw [insertStable_filter_pos v x acc hx hacc]
      simp [hx]
    · rw [insertStable_filter_neg v x acc hx]
      simp [hx]

/-- Stability of the descending sort: elements of any fixed score keep their
original relative order. -/
theorem sortByScoreDesc_stable (l : List (StoredDoc × Option ℚ)) (v : ℚ) :
    (sortByScoreDesc l).filter (fun p => decide (p.2 = some v)) =
      l.filter (fun p => decide (p.2 = some v)) := by
  simpa using foldl_insertStable_filter v l [] List.Pairwise.nil

theorem searchFilter_subset (fns : Option (List String)) (docs : List StoredDoc) :
    searchFilter fns docs ⊆ docs := by
  cases fns with
  | none => exact fun d hd => hd
  | some l =>
    rw [searchFilter]
    by_cases hl : l.isEmpty
    · rw [if_pos hl]
      exact fun d hd => hd
    · rw [if_neg hl]
      exact List.Sublist.subset (List.filter_sublist _)

theorem mem_searchScored (sqrt : ℚ → ℚ) (docs : List StoredDoc) (q : List ℚ)
    (fns : Option (List String)) (minScore : ℚ) (p : StoredDoc × Option ℚ)
    (hp : p ∈ searchScored sqrt docs q fns minScore) :
    p.1 ∈ docs ∧ p.2 = cosineSim sqrt q p.1.embedding ∧
      ∃ v, p.2 = some v ∧ minScore ≤ v := by
  rw [searchScored] at hp
  have hpass := List.of_mem_filter hp
  have hmap := List.mem_of_mem_filter hp
  obtain ⟨d, hd, hpd⟩ := List.mem_map.mp hmap
  obtain rfl := hpd.symm
  refine ⟨searchFilter_subset fns docs (List.take_subset 500 _ hd), rfl, ?_⟩
  unfold passesMin at hpass
  rcases hs : cosineSim sqrt q d.embedding with _ | v
  · rw [hs] at hpass; simp at hpass
  · rw [hs] at hpass
    exact ⟨v, rfl, by simpa using hpass⟩

/-- Abstract square-root function realizing the concrete scorer example: on
the magnitudes actually reached (`1`, `8281`, `3025`, `5184`) it returns `1`
and `100`; only those points are evaluated. -/
def exSqrt : ℚ → ℚ := fun x => if x = 1 then 1 else 100

/-- A stored chunk with a one-dimensional embedding, for concrete instances. -/
def exDoc (id : String) (e : ℚ) : StoredDoc :=
  { _id := id, text := id, embedding := [e], file_number := "F", source_url := "u",
    page_number := 1, bbox := ⟨0, 0, 612, 792⟩, chunk_index := 0, metadata := [] }

/-- Store of three chunks whose cosine similarities against the query `[1]`
under `exSqrt` are exactly `0.91`, `0.55`, `0.72`. -/
def exDocs : List StoredDoc := [exDoc "A" 91, exDoc "B" 55, exDoc "C" 72]

/-- C1: for every stored candidate set, query vector, limit and threshold,
the search returns only chunks whose cosine similarity is `≥ min_score`, at
most `limit` of them, ordered by nonincreasing similarity with ties kept in
original storage order (stable sort); on a store with similarities
`[0.91, 0.55, 0.72]`, `minScore = 0.6` and `limit = 10`, exactly the two
chunks scoring `0.91` and `0.72` are returned, in that order. -/
theorem C1_search_threshold_ordering_stability :
    (∀ (sqrt : ℚ → ℚ) (docs : List StoredDoc) (q : List ℚ)
        (fns : Option (List String)) (lim : ℕ) (minScore : ℚ),
      handleSearch sqrt docs q fns lim minScore =
        (searchRanked sqrt docs q fns lim minScore).map
          (fun p => { document := { p.1 with embedding := [] }, score := p.2 }) ∧
      (searchRanked sqrt docs q fns lim minScore).length ≤ lim ∧
      (∀ p ∈ searchRanked sqrt docs q fns lim minScore,
        p.1 ∈ docs ∧ p.2 = cosineSim sqrt q p.1.embedding ∧
          ∃ v, p.2 = some v ∧ minScore ≤ v) ∧
      ((searchRanked sqrt docs q fns lim minScore).Pairwise
        fun a b => scoreLt a b = false) ∧
      (∀ v : ℚ,
        (sortByScoreDesc (searchScored sqrt docs q fns minScore)).filter
            (fun p => decide (p.2 = some v)) =
          (searchScored sqrt docs q fns minScore).filter
            fun p => decide (p.2 = some v))) ∧
    ((exDocs.map fun d => cosineSim exSqrt [1] d.embedding) =
        [some (91/100), some (55/100), some (72/100)] ∧
      handleSearch exSqrt exDocs [1] none 10 (6/10) =
        [{ document := { exDoc "A" 91 with embedding := [] }, score := some (91/100) },
         { document := { exDoc "C" 72 with embedding := [] }, score := some (72/100) }]) := by
  constructor
  · intro sqrt docs q fns lim minScore
    refine ⟨rfl, ?_, ?_, ?_, ?_⟩
    · exact List.length_take_le _ _
    · intro p hp
      have h₁ := List.take_subset lim _ hp
      have h₂ := (sortByScoreDesc_perm (searchScored sqrt docs q fns minScore)).subset h₁
      exact mem_searchScored sqrt docs q fns minScore p h₂
    · exact (sortByScoreDesc_pairwise _).sublist (List.take_sublist _ _)
    · exact sortByScoreDesc_stable _
  · constructor
    · norm_num [exDocs, exDoc, cosineSim, dotProduct, exSqrt]
    · norm_num [handleSearch, searchRanked, searchScored, searchFilter, sortByScoreDesc,
        insertStable, scoreLt, passesMin, exDocs, exDoc, cosineSim, dotProduct, exSqrt,
        List.take_of_length_le]

/-- C1 witness: the universal part of the threshold/ordering theorem applied
to the concrete three-chunk store: the top-ranked pair indeed scores `0.91`
against the query and clears the `0.6` threshold. -/
theorem C1_witness :
    (exDoc "A" 91, some (91/100 : ℚ)) ∈ searchRanked exSqrt exDocs [1] none 10 (6/10) ∧
    ((exDoc "A" 91, some (91/100 : ℚ)).1 ∈ exDocs ∧
      (exDoc "A" 91, some (91/100 : ℚ)).2 =
        cosineSim exSqrt [1] (exDoc "A" 91, some (91/100 : ℚ)).1.embedding ∧
      ∃ v, (exDoc "A" 91, some (91/100 : ℚ)).2 = some v ∧ (6/10 : ℚ) ≤ v) := by
  have hp : (exDoc "A" 91, some (91/100 : ℚ)) ∈
      searchRanked exSqrt exDocs [1] none 10 (6/10) := by
    norm_num [searchRanked, searchScored, searchFilter, sortByScoreDesc,
      insertStable, scoreLt, passesMin, exDocs, exDoc, cosineSim, dotProduct, exSqrt,
      List.take_of_length_le]
  exact ⟨hp, (C1_search_threshold_ordering_stability.1 exSqrt exDocs [1] none
    10 (6/10)).2.2.1 _ hp⟩

/-- Abstract square root used for concrete degenerate-scorer instances.  Only
`sqrt 0` is ever reached, where it agrees with the real square root. -/
def demoSqrt : ℚ → ℚ := fun x => if x = 0 then 0 else 1

/-- C2 (amended): the scorer returns exactly `0` when the two vectors differ
in length (in particular when exactly one is empty); when the lengths agree
and either vector has zero magnitude — including both empty — it returns
`NaN` (`none`), not `0` and not an error; since `NaN` fails every `>=`
comparison, a query of zero magnitude still produces an empty result set
under any positive `min_score`. -/
theorem C2_cosineSim_degenerate (sqrt : ℚ → ℚ) (h0 : sqrt 0 = 0) :
    (∀ a b : List ℚ, a.length ≠ b.length → cosineSim sqrt a b = some 0) ∧
    (∀ a b : List ℚ, a.length = b.length →
      dotProduct a a = 0 ∨ dotProduct b b = 0 → cosineSim sqrt a b = none) ∧
    (∀ (docs : List StoredDoc) (q : List ℚ) (fns : Option (List String))
        (lim : ℕ) (minScore : ℚ), 0 < minScore → dotProduct q q = 0 →
      searchRanked sqrt docs q fns lim minScore = [] ∧
      handleSearch sqrt docs q fns lim minScore = []) := by
  have hb : ∀ a b : List ℚ, a.length = b.length →
      dotProduct a a = 0 ∨ dotProduct b b = 0 → cosineSim sqrt a b = none := by
    intro a b hlen hmag
    rw [cosineSim, if_neg (by simp [hlen])]
    rcases hmag with hA | hB
    · simp [hA, h0]
    · simp [hB, h0]
  refine ⟨?_, hb, ?_⟩
  · intro a b hlen
    rw [cosineSim, if_pos hlen]
  · intro docs q fns lim minScore hpos hq
    have hscored : searchScored sqrt docs q fns minScore = [] := by
      rw [searchScored, List.filter_eq_nil_iff]
      intro p hp
      obtain ⟨d, _, rfl⟩ := List.mem_map.mp hp
      unfold passesMin
      by_cases hlen : q.length = d.embedding.length
      · rw [hb q d.embedding hlen (Or.inl hq)]
        simp
      · rw [show cosineSim sqrt q d.embedding = some 0 by
          rw [cosineSim, if_pos hlen]]
        simpa using not_le.mpr hpos
    have hranked : searchRanked sqrt docs q fns lim minScore = [] := by
      rw [searchRanked, hscored]
      simp [sortByScoreDesc]
    exact ⟨hranked, by rw [handleSearch, hranked]; rfl⟩

/-- C2 counterexample: a zero-magnitude vector of matching length — and the
pair of empty vectors — makes `cosineSim` return `NaN` (`none`), not the `0`
the claim asserts. -/
theorem C2_counterexample_nan :
    cosineSim demoSqrt [0] [1] = none ∧
    cosineSim demoSqrt [] [] = none ∧
    (none : Option ℚ) ≠ some 0 := by
  refine ⟨?_, ?_, by simp⟩
  · norm_num [cosineSim, dotProduct, demoSqrt]
  · norm_num [cosineSim, dotProduct, demoSqrt]

/-- C2 witness: the amended degenerate-case theorem instantiated at concrete
vectors and a concrete store. -/
theorem C2_witness :
    demoSqrt 0 = 0 ∧
    cosineSim demoSqrt [0, 1] [1] = some 0 ∧
    cosineSim demoSqrt [0, 0] [1, 1] = none ∧
    handleSearch demoSqrt exDocs [0] none 10 (7/10) = [] := by
  have h0 : demoSqrt 0 = 0 := by norm_num [demoSqrt]
  refine ⟨h0, ?_, ?_, ?_⟩
  · exact (C2_cosineSim_degenerate demoSqrt h0).1 [0, 1] [1] (by norm_num)
  · exact (C2_cosineSim_degenerate demoSqrt h0).2.1 [0, 0] [1, 1] rfl
      (Or.inl (by norm_num [dotProduct]))
  · exact ((C2_cosineSim_degenerate demoSqrt h0).2.2 exDocs [0] none 10 (7/10)
      (by norm_num) (by norm_num [dotProduct])).2

/-! ## Query enrichment (`enhanceQuery`, reducto-parse/index.ts)

```ts
let enhancedQuery = query.toLowerCase();
for (const [term, expansion] of Object.entries(zoningTerms)) {
  if (enhancedQuery.includes(term)) {
    enhancedQuery = enhancedQuery.replace(new RegExp(`\\b${term}\\b`, "gi"), expansion);
  }
}
```
-/

/-- Case-insensitive prefix test (regex `i` flag, ASCII). -/
def ciIsPrefixOf : List Char → List Char → Bool
  | [], _ => true
  | _ :: _, [] => false
  | t :: ts, c :: cs => ciEq t c && ciIsPrefixOf ts cs

/-- Case-sensitive prefix test. -/
def csIsPrefixOf : List Char → List Char → Bool
  | [], _ => true
  | _ :: _, [] => false
  | n :: ns, h :: hs => n = h && csIsPrefixOf ns hs

/-- `String.prototype.includes`: case-sensitive substring containment. -/
def jsIncludes (needle : List Char) : List Char → Bool
  | [] => needle.isEmpty
  | h :: hs => csIsPrefixOf needle (h :: hs) || jsIncludes needle hs

/-- Word-character test on an optional character; out-of-string counts as
non-word, exactly as the regex `\b` assertion treats the string edges. -/
def wordCharOpt : Option Char → Bool
  | some c => jsWordChar c
  | none => false

/-- The regex `\b` assertion between a left and a right character: exactly one
of the two sides is a word character. -/
def jsBoundary (l r : Option Char) : Bool := wordCharOpt l != wordCharOpt r

/-- One global pass of `s.replace(/\bterm\b/gi, expansion)`: scan left to
right carrying the previous character; at a position where `term` matches
case-insensitively with `\b` holding on both sides, emit `expansion` and
resume after the match (the replacement is not rescanned).  Structurally
recursive on fuel — one character is consumed per step (the table never
holds an empty term, and the `!term.isEmpty` conjunct makes that explicit),
so fuel equal to the string length suffices. -/
def replaceWordAux (term expansion : List Char) : ℕ → Option Char → List Char → List Char
  | 0, _, s => s
  | _ + 1, _, [] => []
  | fuel + 1, prev, c :: cs =>
    if ciIsPrefixOf term (c :: cs) && !term.isEmpty &&
        jsBoundary prev (some c) &&
        jsBoundary ((c :: cs).take term.length).getLast? ((c :: cs).drop term.length).head?
    then expansion ++
      replaceWordAux term expansion fuel
        ((c :: cs).take term.length).getLast? ((c :: cs).drop term.length)
    else c :: replaceWordAux term expansion fuel (some c) cs

/-- `enhancedQuery.replace(new RegExp(`\\b${term}\\b`, "gi"), expansion)`. -/
def replaceWordBounded (term expansion s : List Char) : List Char :=
  replaceWordAux term expansion s.length none s

/-- The fixed `zoningTerms` table, in source (insertion) order — `Object.entries`
iterates string keys in insertion order. -/
def zoningTerms : List (List Char × List Char) :=
  [("rto".data, "RTO Residential Transit Oriented".data),
   ("rto-c".data, "RTO-C Residential Transit Oriented Commercial".data),
   ("rto-m".data, "RTO-M Residential Transit Oriented Mixed".data),
   ("nc".data, "NC Neighborhood Commercial".data),
   ("rm".data, "RM Residential Mixed".data),
   ("rh".data, "RH Residential House".data),
   ("c-3".data, "C-3 Downtown Commercial".data),
   ("soma".data, "South of Market SOMA".data),
   ("builder's remedy".data, "Builder's Remedy Housing Accountability Act HAA".data),
   ("housing element".data, "Housing Element General Plan".data),
   ("ceqa".data, "California Environmental Quality Act CEQA".data),
   ("eir".data, "Environmental Impact Report EIR".data)]

/-- `enhanceQuery` (reducto-parse/index.ts): lower-case the query, then for
each table entry in order, when the (case-sensitive!) `includes` test finds
the term as a substring of the current string, replace its whole-word
occurrences case-insensitively. -/
def enhanceQuery (query : List Char) : List Char :=
  zoningTerms.foldl
    (fun acc te => if jsIncludes te.1 acc then replaceWordBounded te.1 te.2 acc else acc)
    (query.map jsToLower)

/-- C9 (code bug): the query `"RTO-C"` is never expanded to its full
designation.  The earlier `"rto"` table entry consumes the `rto` inside
`rto-c` first (the `\b` boundary holds before the hyphen), and the
case-sensitive `includes("rto-c")` test then fails on the partially
rewritten string, so the `"rto-c"` entry — present in the table, and the
very example given in the function's own documentation comment — never
fires: the enriched query is `"RTO Residential Transit Oriented-c"` and does
not contain `"Residential Transit Oriented Commercial"`. -/
theorem C9_enhanceQuery_rtoc_bug :
    enhanceQuery "RTO-C".data = "RTO Residential Transit Oriented-c".data ∧
    jsIncludes ("Residential Transit Oriented Commercial".data)
        (enhanceQuery "RTO-C".data) = false ∧
    ("rto-c".data, "RTO-C Residential Transit Oriented Commercial".data) ∈ zoningTerms := by
  refine ⟨by decide, by decide, by decide⟩

/-! ## Chunk store / upsert engine (`handleUpsert`, mongo-upsert handler)

```ts
const batches = chunkArray(documents, BATCH_SIZE); // BATCH_SIZE = 100
for (...) {
  const bulkOps = batch.map((doc) => ({
    updateOne: {
      filter: { source_url: doc.source_url, chunk_index: doc.chunk_index },
      update: { $set: { text, embedding: quantizeEmbedding(...), ...,
                        metadata: { ...doc.metadata, embedded_at: now } } },
      upsert: true } }));
  const result = await collection.bulkWrite(bulkOps);
  totalUpserted += result.upsertedCount; totalModified += result.modifiedCount;
}
```
-/

/-- `chunkArray` (utils.ts) recursion skeleton, structurally recursive on a
fuel argument (each step consumes at least one element when `0 < size`). -/
def chunkArrayFuel {α : Type} (size : ℕ) : ℕ → List α → List (List α)
  | 0, _ => []
  | _ + 1, [] => []
  | fuel + 1, x :: xs => (x :: xs).take size :: chunkArrayFuel size fuel ((x :: xs).drop size)

/-- `chunkArray(array, size)` (utils.ts): split into consecutive slices of at
most `size` elements.  With `size = 0` the JS loop never advances; the model
returns `[]` there (unreachable: the callers pass 100 and 128). -/
def chunkArray {α : Type} (l : List α) (size : ℕ) : List (List α) :=
  if size = 0 then [] else chunkArrayFuel size l.length l

theorem chunkArrayFuel_join {α : Type} (size : ℕ) (hs : 0 < size) :
    ∀ (fuel : ℕ) (l : List α), l.length ≤ fuel → (chunkArrayFuel size fuel l).flatten = l := by
  intro fuel
  induction fuel with
  | zero =>
    intro l hl
    rw [List.length_eq_zero.mp (Nat.le_zero.mp hl)]
    rfl
  | succ f ih =>
    intro l hl
    cases l with
    | nil => rfl
    | cons x xs =>
      rw [chunkArrayFuel, List.flatten_cons, ih _ ?_, List.take_append_drop]
      have : ((x :: xs).drop size).length = (x :: xs).length - size := List.length_drop _ _
      simp only [List.length_cons] at hl this
      omega

/-- Splitting into batches then concatenating is the identity. -/
theorem chunkArray_flatten {α : Type} (l : List α) (size : ℕ) (hs : 0 < size) :
    (chunkArray l size).flatten = l := by
  rw [chunkArray, if_neg (Nat.pos_iff_ne_zero.mp hs)]
  exact chunkArrayFuel_join size hs l.length l le_rfl

/-- A document of an upsert request (`UpsertRequest.documents` element). -/
structure UpsertDoc where
  text : String
  embedding : List ℚ
  file_number : String
  source_url : String
  page_number : ℚ
  bbox : BBox
  chunk_index : ℚ
  metadata : List (String × String)
deriving DecidableEq

/-- A record of the `document_chunks` collection as written by the `$set`
document of `handleUpsert`. -/
structure ChunkRecord where
  text : String
  embedding : List ℤ
  embedding_dimensions : ℕ
  file_number : String
  source_url : String
  page_number : ℚ
  bbox : BBox
  chunk_index : ℚ
  metadata : List (String × String)
deriving DecidableEq

/-- JS object spread `{...m, k: v}`: an existing key keeps its position and
gets the new value, a missing key is appended. -/
def setMetaKey (m : List (String × String)) (k v : String) : List (String × String) :=
  if m.any fun kv => kv.1 = k then m.map fun kv => if kv.1 = k then (k, v) else kv
  else m ++ [(k, v)]

/-- The `$set` document built by `handleUpsert` from one request document,
stamping `metadata.embedded_at` with the upsert-time timestamp `now`. -/
def setRecord (doc : UpsertDoc) (now : String) : ChunkRecord :=
  { text := doc.text
    embedding := quantizeEmbedding doc.embedding
    embedding_dimensions := doc.embedding.length
    file_number := doc.file_number
    source_url := doc.source_url
    page_number := doc.page_number
    bbox := doc.bbox
    chunk_index := doc.chunk_index
    metadata := setMetaKey doc.metadata "embedded_at" now }

/-- The `updateOne` filter: match on the `(source_url, chunk_index)` pair. -/
def matchesKey (doc : UpsertDoc) (r : ChunkRecord) : Bool :=
  r.source_url = doc.source_url && r.chunk_index = doc.chunk_index

/-- Replace the first record satisfying `p` by `new`, returning the replaced
record as well; `none` when nothing matches. -/
def updateFirst (p : ChunkRecord → Bool) (new : ChunkRecord) :
    List ChunkRecord → Option (List ChunkRecord × ChunkRecord)
  | [] => none
  | r :: rs =>
    if p r then some (new :: rs, r)
    else
      match updateFirst p new rs with
      | some (rs', old) => some (r :: rs', old)
      | none => none

/-- Modelled from the spec: one `updateOne { filter, $set, upsert: true }`
operation of the storage collaborator's `upsert(documents[])` contract (§6,
"performs an idempotent upsert keyed by (sourceUrl, chunkIndex); returns
counts of newly inserted vs. modified records").  MongoDB applies ordered
bulk operations sequentially; an `updateOne` with `upsert: true` replaces the
fields of the first record matching the filter — counting it as modified only
when the stored record actually changes — and inserts a new record (counted
in `upsertedCount`) when none matches.  The state is
`(store, upsertedCount, modifiedCount)`. -/
def applyUpdateOne (now : String) (st : List ChunkRecord × ℕ × ℕ) (doc : UpsertDoc) :
    List ChunkRecord × ℕ × ℕ :=
  let new := setRecord doc now
  match updateFirst (matchesKey doc) new st.1 with
  | some (store', old) => (store', st.2.1, st.2.2 + if new = old then 0 else 1)
  | none => (st.1 ++ [new], st.2.1 + 1, st.2.2)

/-- `handleUpsert` (mongo-upsert handler): process the documents in batches
of `BATCH_SIZE = 100`, one ordered bulk write per batch, accumulating the
upserted/modified totals. -/
def handleUpsert (documents : List UpsertDoc) (now : String)
    (store : List ChunkRecord) : List ChunkRecord × ℕ × ℕ :=
  (chunkArray documents 100).foldl
    (fun st batch => batch.foldl (applyUpdateOne now) st)
    (store, 0, 0)

/-- Claim-side invariant: no two stored records share the
`(source_url, chunk_index)` key. -/
def KeyUnique (store : List ChunkRecord) : Prop :=
  store.Pairwise fun r s => ¬(r.source_url = s.source_url ∧ r.chunk_index = s.chunk_index)

theorem foldl_batches {α β : Type} (f : β → α → β) :
    ∀ (bs : List (List α)) (init : β),
      bs.foldl (fun st b => b.foldl f st) init = bs.flatten.foldl f init := by
  intro bs
  induction bs with
  | nil => intro init; rfl
  | cons b bs ih =>
    intro init
    rw [List.foldl_cons, ih, List.flatten_cons, List.foldl_append]

/-- Batching in groups of 100 does not change the sequential effect of the
upsert. -/
theorem handleUpsert_eq_foldl (documents : List UpsertDoc) (now : String)
    (store : List ChunkRecord) :
    handleUpsert documents now store = documents.foldl (applyUpdateOne now) (store, 0, 0) := by
  rw [handleUpsert, foldl_batches, chunkArray_flatten documents 100 (by norm_num)]

theorem updateFirst_eq_none (p : ChunkRecord → Bool) (new : ChunkRecord) :
    ∀ store : List ChunkRecord,
      updateFirst p new store = none ↔ ∀ r ∈ store, p r = false := by
  intro store
  induction store with
  | nil => simp [updateFirst]
  | cons r rs ih =>
    rw [updateFirst]
    by_cases hr : p r
    · simp [hr]
    · rw [if_neg hr]
      rcases hu : updateFirst p new rs with _ | ⟨rs', old⟩
      · constructor
        · intro _ s hs
          rcases List.mem_cons.mp hs with rfl | hs'
          · simpa using hr
          · exact (ih.mp hu) s hs'
        · intro _; rfl
      · constructor
        · intro hfalse
          exact absurd hfalse (by simp)
        · intro hall
          have hnone : updateFirst p new rs = none :=
            ih.mpr fun s hs => hall s (List.mem_cons_of_mem r hs)
          rw [hnone] at hu
          exact absurd hu (by simp)

theorem updateFirst_eq_some (p : ChunkRecord → Bool) (new : ChunkRecord) :
    ∀ (store store' : List ChunkRecord) (old : ChunkRecord),
      updateFirst p new store = some (store', old) →
      p old = true ∧ ∃ pre suf, store = pre ++ old :: suf ∧
        store' = pre ++ new :: suf ∧ ∀ r ∈ pre, p r = false := by
  intro store
  induction store with
  | nil =>
    intro store' old h
    rw [updateFirst] at h
    exact absurd h (by simp)
  | cons r rs ih =>
    intro store' old h
    rw [updateFirst] at h
    by_cases hr : p r
    · rw [if_pos hr] at h
      simp only [Option.some.injEq, Prod.mk.injEq] at h
      obtain ⟨h₁, h₂⟩ := h
      subst h₂
      exact ⟨hr, [], rs, rfl, h₁.symm ▸ rfl, by simp⟩
    · rw [if_neg hr] at h
      rcases hu : updateFirst p new rs with _ | ⟨rs', old'⟩ <;> rw [hu] at h
      · exact absurd h (by simp)
      · simp only [Option.some.injEq, Prod.mk.injEq] at h
        obtain ⟨h₁, h₂⟩ := h
        subst h₂
        obtain ⟨hp, pre, suf, hsplit, hstore', hpre⟩ := ih rs' old' hu
        refine ⟨hp, r :: pre, suf, by rw [hsplit]; rfl, by rw [← h₁, hstore']; rfl, ?_⟩
        intro s hs
        rcases List.mem_cons.mp hs with rfl | hs'
        · simpa using hr
        · exact hpre s hs'

theorem setRecord_key_src (doc : UpsertDoc) (now : String) :
    (setRecord doc now).source_url = doc.source_url := rfl

theorem setRecord_key_idx (doc : UpsertDoc) (now : String) :
    (setRecord doc now).chunk_index = doc.chunk_index := rfl

theorem matchesKey_iff (doc : UpsertDoc) (r : ChunkRecord) :
    matchesKey doc r = true ↔
      r.source_url = doc.source_url ∧ r.chunk_index = doc.chunk_index := by
  simp [matchesKey]

theorem applyUpdateOne_keyUnique (now : String) (st : List ChunkRecord × ℕ × ℕ)
    (doc : UpsertDoc) (h : KeyUnique st.1) : KeyUnique (applyUpdateOne now st doc).1 := by
  rw [applyUpdateOne]
  rcases hu : updateFirst (matchesKey doc) (setRecord doc now) st.1 with _ | ⟨store', old⟩
  · simp only [hu]
    rw [KeyUnique, List.pairwise_append]
    refine ⟨h, List.pairwise_singleton _ _, ?_⟩
    intro x hx y hy
    have hxk : matchesKey doc x = false := (updateFirst_eq_none _ _ _).mp hu x hx
    have : y = setRecord doc now := by simpa using hy
    subst this
    rw [setRecord_key_src, setRecord_key_idx]
    intro hcontr
    exact absurd ((matchesKey_iff doc x).mpr hcontr) (by simp [hxk])
  · simp only [hu]
    obtain ⟨hp, pre, suf, hsplit, hstore', hpre⟩ := updateFirst_eq_some _ _ _ _ _ hu
    obtain ⟨hsrc, hidx⟩ := (matchesKey_iff doc old).mp hp
    rw [KeyUnique, hstore', List.pairwise_append, List.pairwise_cons]
    rw [KeyUnique, hsplit, List.pairwise_append, List.pairwise_cons] at h
    obtain ⟨hpre', ⟨hold, hsuf⟩, hcross⟩ := h
    have hnewkey₁ : (setRecord doc now).source_url = old.source_url := by
      rw [setRecord_key_src, hsrc]
    have hnewkey₂ : (setRecord doc now).chunk_index = old.chunk_index := by
      rw [setRecord_key_idx, hidx]
    refine ⟨hpre', ⟨?_, hsuf⟩, ?_⟩
    · intro y hy
      rw [hnewkey₁, hnewkey₂]
      exact hold y hy
    · intro x hx y hy
      rcases List.mem_cons.mp hy with rfl | hy'
      · rw [hnewkey₁, hnewkey₂]
        exact hcross x hx old (by simp)
      · exact hcross x hx y (List.mem_cons_of_mem old hy')

theorem foldl_applyUpdateOne_keyUnique (now : String) :
    ∀ (docs : List UpsertDoc) (st : List ChunkRecord × ℕ × ℕ),
      KeyUnique st.1 → KeyUnique ((docs.foldl (applyUpdateOne now) st)).1 := by
  intro docs
  induction docs with
  | nil => intro st h; exact h
  | cons d ds ih =>
    intro st h
    rw [List.foldl_cons]
    exact ih _ (applyUpdateOne_keyUnique now st d h)

theorem lookup_setMetaKey (k v : String) :
    ∀ m : List (String × String), (setMetaKey m k v).lookup k = some v := by
  intro m
  induction m with
  | nil => simp [setMetaKey, List.lookup]
  | cons kv rest ih =>
    by_cases hk : kv.1 = k
    · rw [setMetaKey, if_pos (by simp [hk])]
      simp only [List.map_cons, if_pos hk]
      simp [List.lookup]
    · have hstep : setMetaKey (kv :: rest) k v = kv :: setMetaKey rest k v := by
        rw [setMetaKey, setMetaKey]
        by_cases ha : rest.any fun p => p.1 = k
        · rw [if_pos (by simp [ha]), if_pos ha, List.map_cons, if_neg hk]
        · rw [if_neg (by simp [ha, hk]), if_neg ha]
          rfl
      rw [hstep]
      have : (k == kv.1) = false := by
        simpa using fun h => hk h.symm
      simpa [List.lookup, this] using ih

theorem setRecord_ne_of_now_ne (doc : UpsertDoc) (now₁ now₂ : String)
    (h : now₁ ≠ now₂) : setRecord doc now₁ ≠ setRecord doc now₂ := by
  intro he
  have hm : setMetaKey doc.metadata "embedded_at" now₁ =
      setMetaKey doc.metadata "embedded_at" now₂ :=
    congrArg ChunkRecord.metadata he
  have h₁ := lookup_setMetaKey "embedded_at" now₁ doc.metadata
  rw [hm, lookup_setMetaKey "embedded_at" now₂ doc.metadata] at h₁
  exact h (Option.some.inj h₁).symm

theorem updateFirst_append_none (p : ChunkRecord → Bool) (new : ChunkRecord) :
    ∀ (l₁ l₂ : List ChunkRecord), (∀ r ∈ l₁, p r = false) →
      updateFirst p new (l₁ ++ l₂) =
        (updateFirst p new l₂).map fun x => (l₁ ++ x.1, x.2) := by
  intro l₁
  induction l₁ with
  | nil =>
    intro l₂ _
    simp
  | cons r rs ih =>
    intro l₂ hall
    rw [List.cons_append, updateFirst,
      if_neg (by simpa using hall r (by simp)), ih l₂ fun s hs => hall s (by simp [hs])]
    rcases updateFirst p new l₂ with _ | pr <;> simp

/-- C3: upsert is keyed by `(source_url, chunk_index)`: re-processing never
duplicates a chunk (key-uniqueness of the store is preserved by every batch),
and upserting the same payload twice — with the two calls stamping distinct
`embedded_at` timestamps — leaves exactly one record for that key, the first
call reporting `(inserted, modified) = (1, 0)` and the second `(0, 1)`. -/
theorem C3_upsert_idempotent :
    (∀ (documents : List UpsertDoc) (now : String) (store : List ChunkRecord),
      KeyUnique store → KeyUnique (handleUpsert documents now store).1) ∧
    (∀ (doc : UpsertDoc) (now₁ now₂ : String) (store₀ : List ChunkRecord),
      (∀ r ∈ store₀, matchesKey doc r = false) → now₁ ≠ now₂ →
      handleUpsert [doc] now₁ store₀ = (store₀ ++ [setRecord doc now₁], 1, 0) ∧
      handleUpsert [doc] now₂ (store₀ ++ [setRecord doc now₁]) =
        (store₀ ++ [setRecord doc now₂], 0, 1) ∧
      ((store₀ ++ [setRecord doc now₂]).countP fun r => matchesKey doc r) = 1) := by
  constructor
  · intro documents now store h
    rw [handleUpsert_eq_foldl]
    exact foldl_applyUpdateOne_keyUnique now documents (store, 0, 0) h
  · intro doc now₁ now₂ store₀ hfresh hne
    have hmatch₁ : matchesKey doc (setRecord doc now₁) = true :=
      (matchesKey_iff doc _).mpr ⟨rfl, rfl⟩
    have hnone : updateFirst (matchesKey doc) (setRecord doc now₁) store₀ = none :=
      (updateFirst_eq_none _ _ store₀).mpr hfresh
    refine ⟨?_, ?_, ?_⟩
    · rw [handleUpsert_eq_foldl, List.foldl_cons, List.foldl_nil, applyUpdateOne, hnone]
    · rw [handleUpsert_eq_foldl, List.foldl_cons, List.foldl_nil, applyUpdateOne]
      rw [updateFirst_append_none _ _ store₀ _ hfresh]
      rw [show updateFirst (matchesKey doc) (setRecord doc now₂) [setRecord doc now₁] =
          some ([setRecord doc now₂], setRecord doc now₁) by
        rw [updateFirst, if_pos hmatch₁]]
      rw [Option.map_some']
      have hne' : setRecord doc now₂ ≠ setRecord doc now₁ :=
        setRecord_ne_of_now_ne doc now₂ now₁ (Ne.symm hne)
      simp [hne']
    · rw [List.countP_append]
      have h₀ : store₀.countP (fun r => matchesKey doc r) = 0 := by
        rw [List.countP_eq_zero]
        intro r hr
        simp [hfresh r hr]
      have h₁ : ([setRecord doc now₂].countP fun r => matchesKey doc r) = 1 := by
        have : matchesKey doc (setRecord doc now₂) = true :=
          (matchesKey_iff doc _).mpr ⟨rfl, rfl⟩
        simp [List.countP_cons, this]
      rw [h₀, h₁]

/-- A concrete upsert payload for the idempotence witness. -/
def exUpsertDoc : UpsertDoc :=
  { text := "t", embedding := [], file_number := "F", source_url := "u",
    page_number := 1, bbox := ⟨0, 0, 612, 792⟩, chunk_index := 0, metadata := [] }

/-- C3 witness: the double-upsert theorem instantiated on an initially empty
store with timestamps `"t1" ≠ "t2"`. -/
theorem C3_witness :
    handleUpsert [exUpsertDoc] "t1" [] = ([setRecord exUpsertDoc "t1"], 1, 0) ∧
    handleUpsert [exUpsertDoc] "t2" [setRecord exUpsertDoc "t1"] =
      ([setRecord exUpsertDoc "t2"], 0, 1) ∧
    ([setRecord exUpsertDoc "t2"].countP fun r => matchesKey exUpsertDoc r) = 1 := by
  have h := C3_upsert_idempotent.2 exUpsertDoc "t1" "t2" [] (by simp) (by decide)
  simpa using h

/-! ## Chunk normalizer (reducto-parse/index.ts)

The section/table heuristics run a handful of fixed JS regexes.  They are
embedded through a small backtracking matcher over a token alphabet that
covers exactly the constructs those patterns use: literal alternations
(with the `i` flag), greedy bounded character-class repetition, capture
groups, and the multiline `^`/`$` assertions. -/

/-- Token alphabet of the embedded regex fragments. -/
inductive RTok where
  | lits (alts : List (List Char)) (ci : Bool)
  | cls (p : Char → Bool) (lo : ℕ) (hi : Option ℕ)
  | gopen (n : ℕ)
  | gclose (n : ℕ)
  | bol
  | eol

/-- Literal prefix match honoring the `i` flag. -/
def litAt (ci : Bool) (alt rest : List Char) : Bool :=
  if ci then ciIsPrefixOf alt rest else csIsPrefixOf alt rest

/-- JS line terminators reachable in this ASCII model. -/
def jsLineTerm (c : Char) : Bool := c = '\n' || c = '\r'

/-- Backtracking matcher at a fixed start position: greedy repetition with
full backtracking (try the longest repetition first), alternations tried in
order, leftmost alternative preferred — the JS semantics of the embedded
patterns.  `pend` holds the open capture groups, `done` the closed ones as
`(group, start, end)` index triples into `s₀`. -/
def reMatch (s₀ : List Char) :
    List RTok → ℕ → List (ℕ × ℕ) → List (ℕ × ℕ × ℕ) → Option (List (ℕ × ℕ × ℕ))
  | [], _, _, done => some done
  | .gopen n :: rest, pos, pend, done => reMatch s₀ rest pos ((n, pos) :: pend) done
  | .gclose n :: rest, pos, pend, done =>
    match pend with
    | (m, st) :: pend' =>
      if m = n then reMatch s₀ rest pos pend' ((n, st, pos) :: done) else none
    | [] => none
  | .bol :: rest, pos, pend, done =>
    if pos = 0 ∨ (s₀[pos - 1]?.elim false jsLineTerm) then reMatch s₀ rest pos pend done
    else none
  | .eol :: rest, pos, pend, done =>
    if pos = s₀.length ∨ (s₀[pos]?.elim false jsLineTerm) then reMatch s₀ rest pos pend done
    else none
  | .lits alts ci :: rest, pos, pend, done =>
    alts.findSome? fun alt =>
      if litAt ci alt (s₀.drop pos) then reMatch s₀ rest (pos + alt.length) pend done
      else none
  | .cls p lo hi :: rest, pos, pend, done =>
    let run := ((s₀.drop pos).takeWhile p).length
    let maxK := match hi with | some h => min run h | none => run
    if maxK < lo then none
    else (List.range (maxK - lo + 1)).findSome? fun i =>
      reMatch s₀ rest (pos + (maxK - i)) pend done

/-- Unanchored search: try every start position left to right, first success
wins (leftmost match, as JS `String.prototype.match` without `g`). -/
def reSearch (toks : List RTok) (s : List Char) : Option (List (ℕ × ℕ × ℕ)) :=
  (List.range (s.length + 1)).findSome? fun pos => reMatch s toks pos [] []

/-- Extract a closed capture group from the matcher output. -/
def reGroup (caps : List (ℕ × ℕ × ℕ)) (n : ℕ) : Option (ℕ × ℕ) :=
  caps.findSome? fun c => if c.1 = n then some (c.2.1, c.2.2) else none

/-- Regex `.`: any character except a line terminator. -/
def reDot (c : Char) : Bool := !jsLineTerm c

/-- `[A-Z]`. -/
def upperAZ (c : Char) : Bool := 'A' ≤ c && c ≤ 'Z'

/-- The `sectionPatterns` table of `detectSection`, with the capture-group
index returned for each pattern (original regexes in the comments). -/
def sectionPatterns : List (List RTok × ℕ) :=
  [ -- /(?:SECTION|CHAPTER)\s*(\d+[.\d]*)\s*[-:.]?\s*(.+)/i, group 2
    ([.lits ["SECTION".data, "CHAPTER".data] true, .cls jsWs 0 none,
      .gopen 1, .cls jsDigit 1 none, .cls (fun c => c = '.' || jsDigit c) 0 none, .gclose 1,
      .cls jsWs 0 none, .cls (fun c => c = '-' || c = ':' || c = '.') 0 (some 1),
      .cls jsWs 0 none, .gopen 2, .cls reDot 1 none, .gclose 2], 2),
    -- /^(\d+[.\d]*)\s+([A-Z][A-Z\s]+)$/m, group 2
    ([.bol, .gopen 1, .cls jsDigit 1 none, .cls (fun c => c = '.' || jsDigit c) 0 none,
      .gclose 1, .cls jsWs 1 none, .gopen 2, .cls upperAZ 1 (some 1),
      .cls (fun c => upperAZ c || jsWs c) 1 none, .gclose 2, .eol], 2),
    -- /^(EXECUTIVE SUMMARY|INTRODUCTION|BACKGROUND|ENVIRONMENTAL SETTING)/im
    ([.bol, .gopen 1, .lits ["EXECUTIVE SUMMARY".data, "INTRODUCTION".data,
      "BACKGROUND".data, "ENVIRONMENTAL SETTING".data] true, .gclose 1], 1),
    -- /^(NOISE|WIND|SHADOW|TRANSPORTATION|AIR QUALITY|AESTHETICS)/im
    ([.bol, .gopen 1, .lits ["NOISE".data, "WIND".data, "SHADOW".data,
      "TRANSPORTATION".data, "AIR QUALITY".data, "AESTHETICS".data] true, .gclose 1], 1),
    -- /^(GEOTECHNICAL|HAZARDS|HYDROLOGY|UTILITIES)/im
    ([.bol, .gopen 1, .lits ["GEOTECHNICAL".data, "HAZARDS".data, "HYDROLOGY".data,
      "UTILITIES".data] true, .gclose 1], 1),
    -- /^(ALTERNATIVES|MITIGATION|CUMULATIVE IMPACTS)/im
    ([.bol, .gopen 1, .lits ["ALTERNATIVES".data, "MITIGATION".data,
      "CUMULATIVE IMPACTS".data] true, .gclose 1], 1),
    -- /^(RTO-C|RESIDENTIAL|ZONING|LAND USE)/im
    ([.bol, .gopen 1, .lits ["RTO-C".data, "RESIDENTIAL".data, "ZONING".data,
      "LAND USE".data] true, .gclose 1], 1) ]

/-- `detectSection` (reducto-parse/index.ts): first pattern whose match has a
non-empty (truthy) captured group wins; the capture is trimmed. -/
def detectSection (content : List Char) : Option (List Char) :=
  sectionPatterns.findSome? fun pg =>
    match reSearch pg.1 content with
    | some caps =>
      match reGroup caps pg.2 with
      | some se =>
        let sub := (content.drop se.1).take (se.2 - se.1)
        if sub.isEmpty then none else some (jsTrim sub)
      | none => none
    | none => none

/-- The `tableIndicators` patterns of `detectTableContent` (original regexes
in the comments). -/
def tableIndicators : List (List RTok) :=
  [ -- /\|.*\|.*\|/
    [.lits ["|".data] false, .cls reDot 0 none, .lits ["|".data] false,
     .cls reDot 0 none, .lits ["|".data] false],
    -- /\t.*\t.*\t/
    [.lits ["\t".data] false, .cls reDot 0 none, .lits ["\t".data] false,
     .cls reDot 0 none, .lits ["\t".data] false],
    -- /^\s*\d+\s+\d+\s+\d+/m
    [.bol, .cls jsWs 0 none, .cls jsDigit 1 none, .cls jsWs 1 none,
     .cls jsDigit 1 none, .cls jsWs 1 none, .cls jsDigit 1 none],
    -- /dB[A]?\s*$/m
    [.lits ["dB".data] false, .cls (fun c => c = 'A') 0 (some 1), .cls jsWs 0 none, .eol],
    -- /mph\s*$/m
    [.lits ["mph".data] false, .cls jsWs 0 none, .eol],
    -- /feet\s+\d+/i
    [.lits ["feet".data] true, .cls jsWs 1 none, .cls jsDigit 1 none] ]

/-- `detectTableContent` (reducto-parse/index.ts): some indicator matches. -/
def detectTableContent (content : List Char) : Bool :=
  tableIndicators.any fun toks => (reSearch toks content).isSome

/-- Block-level bounding box of the Reducto response (with page). -/
structure PBBox where
  left : ℚ
  top : ℚ
  width : ℚ
  height : ℚ
  page : ℚ
deriving DecidableEq

/-- A geometric block of the Reducto response (`type`, `content`, `bbox?`).
The typed interface has no `text` field on blocks, so the dynamic
`block.content || block.text || ""` access resolves to `content`. -/
structure RawBlock where
  type : String
  content : String
  bbox : Option PBBox
deriving DecidableEq

/-- An element of `result.chunks` (`content` string, optional `blocks`). -/
structure RawChunk where
  content : String
  blocks : Option (List RawBlock)
deriving DecidableEq

/-- An element of the top-level `chunks` array (`Record<string, unknown>`):
optional `content`/`text` plus its `JSON.stringify` image, which the code
falls back to and which is opaque to this model. -/
structure TopChunk where
  content : Option String
  text : Option String
  stringified : String
deriving DecidableEq

/-- The `result` object of a Reducto pipeline response. -/
structure PipelineResult where
  chunks : Option (List RawChunk)
  blocks : Option (List RawBlock)
  markdown : Option String
  text : Option String
deriving DecidableEq

/-- The fields of `ReductoPipelineResponse` that `transformPipelineResponse`
reads (the top-level `blocks` field exists in the interface but is never
consulted by the transform). -/
structure PipelineResponse where
  result : Option PipelineResult
  chunks : Option (List TopChunk)
  blocks : Option (List TopChunk)
  markdown : Option String
  text : Option String
deriving DecidableEq

/-- Chunk metadata filled by the normalizer.  The source field is named
`section`, a Lean keyword, hence the trailing underscore. -/
structure ChunkMeta where
  section_ : Option (List Char)
  table_detected : Bool
deriving DecidableEq

/-- The canonical chunk record (`ReductoChunk` of `_shared/types.ts`) as
produced by the normalizer. -/
structure ReductoChunk where
  text : List Char
  page_number : ℚ
  bbox : BBox
  chunk_index : ℕ
  metadata : ChunkMeta
deriving DecidableEq

/-- `createChunkFromBlock` (reducto-parse/index.ts).  The `|| 0` defaults on
`left`/`top` are identities on numbers; `width || 612` and `height || 792`
replace a zero (falsy) measurement by the full-page default. -/
def createChunkFromBlock (block : RawBlock) (index : ℕ) : ReductoChunk :=
  { text := cleanText block.content.data
    page_number := match block.bbox with
      | some b => if b.page = 0 then 1 else b.page
      | none => 1
    bbox := match block.bbox with
      | some b =>
        { left := b.left, top := b.top,
          width := if b.width = 0 then 612 else b.width,
          height := if b.height = 0 then 792 else b.height }
      | none => ⟨0, 0, 612, 792⟩
    chunk_index := index
    metadata :=
      { section_ := detectSection block.content.data
        table_detected := block.type = "table" || detectTableContent block.content.data } }

/-- `createChunkFromText` (reducto-parse/index.ts). -/
def createChunkFromText (text : List Char) (index : ℕ) : ReductoChunk :=
  { text := cleanText text
    page_number := 1
    bbox := ⟨0, 0, 612, 792⟩
    chunk_index := index
    metadata :=
      { section_ := detectSection text
        table_detected := detectTableContent text } }

/-- JS `a || b` on an optional string: the empty string is falsy. -/
def strOr (a : Option String) (b : Option String) : Option String :=
  match a with
  | some s => if s = "" then b else some s
  | none => b

/-- `response.result?.chunks`. -/
def resultChunks (r : PipelineResponse) : Option (List RawChunk) :=
  r.result.bind (·.chunks)

/-- `response.result?.blocks`. -/
def resultBlocks (r : PipelineResponse) : Option (List RawBlock) :=
  r.result.bind (·.blocks)

/-- `response.result?.markdown || response.result?.text || response.markdown
|| response.text` — the first truthy (non-empty) string, if any. -/
def firstText (r : PipelineResponse) : Option String :=
  strOr (r.result.bind (·.markdown))
    (strOr (r.result.bind (·.text)) (strOr r.markdown r.text))

/-- Format 1, one `result.chunks` element: its blocks in order, then — when
there are no blocks and the chunk `content` is truthy — one text chunk. -/
def format1Chunk (c : RawChunk) (start : ℕ) : List ReductoChunk :=
  let blocks := c.blocks.getD []
  let fromBlocks := blocks.enum.map fun ib => createChunkFromBlock ib.2 (start + ib.1)
  if c.content ≠ "" ∧ blocks = [] then
    fromBlocks ++ [createChunkFromText c.content.data (start + blocks.length)]
  else fromBlocks

/-- Format 1: `result.chunks[].blocks[]`, a single running chunk index. -/
def runFormat1 (cs : List RawChunk) : List ReductoChunk :=
  (cs.foldl (fun acc c =>
    let out := format1Chunk c acc.2
    (acc.1 ++ out, acc.2 + out.length)) (([] : List ReductoChunk), 0)).1

/-- Format 2: a direct `result.blocks` array. -/
def runFormat2 (bs : List RawBlock) : List ReductoChunk :=
  bs.enum.map fun ib => createChunkFromBlock ib.2 ib.1

/-- `chunk.content || chunk.text || JSON.stringify(chunk)` of Format 3. -/
def topChunkText (c : TopChunk) : String :=
  (strOr c.content (strOr c.text (some c.stringified))).getD c.stringified

/-- Format 3: a top-level `chunks` array of untyped records. -/
def runFormat3 (cs : List TopChunk) : List ReductoChunk :=
  cs.enum.map fun ic => createChunkFromText (topChunkText ic.2).data ic.1

/-- `text.split(/\n\n+/)` recursion skeleton: split on maximal runs of two or
more newlines; structurally recursive on fuel (each step consumes at least
one character, so the string length suffices). -/
def splitParasAux : ℕ → List Char → List Char → List (List Char)
  | 0, acc, rest => [acc.reverse ++ rest]
  | _ + 1, acc, [] => [acc.reverse]
  | fuel + 1, acc, '\n' :: '\n' :: rest =>
    acc.reverse :: splitParasAux fuel [] (rest.dropWhile (· = '\n'))
  | fuel + 1, acc, c :: cs => splitParasAux fuel (c :: acc) cs

/-- `text.split(/\n\n+/)`. -/
def splitParas (s : List Char) : List (List Char) := splitParasAux s.length [] s

/-- Format 4: markdown/plain text split on blank-line boundaries, keeping
trimmed paragraphs longer than 10 characters. -/
def runFormat4 (text : String) : List ReductoChunk :=
  (((splitParas text.data).map jsTrim).filter fun t => 10 < t.length).enum.map
    fun it => createChunkFromText it.2 it.1

/-- `transformPipelineResponse` (reducto-parse/index.ts): the if/else-if
chain over the four response shapes. -/
def transformPipelineResponse (r : PipelineResponse) : List ReductoChunk :=
  if (resultChunks r).elim false (fun cs => !cs.isEmpty) then
    runFormat1 ((resultChunks r).getD [])
  else if (resultBlocks r).elim false (fun bs => !bs.isEmpty) then
    runFormat2 ((resultBlocks r).getD [])
  else if (r.chunks).isSome then
    runFormat3 (r.chunks.getD [])
  else
    match firstText r with
    | some t => runFormat4 t
    | none => []

/-- The four normalization strategies. -/
inductive Strategy where
  | resultChunks
  | resultBlocks
  | topChunks
  | markdownText
deriving DecidableEq

/-- The shape-detection chain: the first strategy whose entry condition holds
claims the payload.  Note the third condition is mere *presence* of the
top-level `chunks` array — an empty array is truthy in JS — while the first
two require non-emptiness and the fourth requires a non-empty string. -/
def selectedStrategy (r : PipelineResponse) : Option Strategy :=
  if (resultChunks r).elim false (fun cs => !cs.isEmpty) then some .resultChunks
  else if (resultBlocks r).elim false (fun bs => !bs.isEmpty) then some .resultBlocks
  else if (r.chunks).isSome then some .topChunks
  else if (firstText r).isSome then some .markdownText
  else none

/-- Output of a single given strategy on a response. -/
def runStrategy (s : Strategy) (r : PipelineResponse) : List ReductoChunk :=
  match s with
  | .resultChunks => runFormat1 ((resultChunks r).getD [])
  | .resultBlocks => runFormat2 ((resultBlocks r).getD [])
  | .topChunks => runFormat3 (r.chunks.getD [])
  | .markdownText => runFormat4 ((firstText r).getD "")

set_option maxRecDepth 8000

/-- A response carrying both a populated `result.chunks` array and markdown
fields (at both levels). -/
def exRespChunks : PipelineResponse :=
  { result := some
      { chunks := some [⟨"structured content goes here", none⟩]
        blocks := none
        markdown := some "SOME MARKDOWN TO IGNORE"
        text := none }
    chunks := none
    blocks := none
    markdown := some "ALSO IGNORED"
    text := none }

/-- A 500-character markdown blob with a single blank-line separator in the
middle. -/
def md500 : String :=
  String.mk (List.replicate 249 'x' ++ '\n' :: '\n' :: List.replicate 249 'y')

/-- A response carrying only the 500-character markdown blob. -/
def exRespMd : PipelineResponse :=
  { result := none, chunks := none, blocks := none, markdown := some md500, text := none }

/-- A response with an *empty* top-level `chunks` array next to a markdown
field that would yield two chunks. -/
def exRespEmptyChunks : PipelineResponse :=
  { result := none, chunks := some [], blocks := none, markdown := some md500, text := none }

/-- C5 (amended): the normalizer runs exactly one strategy — the first whose
entry condition holds — and never merges: `result.chunks` nonempty, else
`result.blocks` nonempty, else the top-level `chunks` array *present* (even
when empty, an array being truthy in JS), else a non-empty markdown/text
string.  A response with a populated `chunks` array and a markdown field
takes only the chunks path, and a 500-character markdown blob with one
blank-line separator yields exactly 2 chunks. -/
theorem C5_normalizer_single_strategy :
    (∀ r : PipelineResponse,
      transformPipelineResponse r =
        match selectedStrategy r with
        | some s => runStrategy s r
        | none => []) ∧
    (∀ (r : PipelineResponse) (cs : List RawChunk),
      resultChunks r = some cs → cs ≠ [] →
      transformPipelineResponse r = runFormat1 cs) ∧
    (transformPipelineResponse exRespChunks =
        runFormat1 [⟨"structured content goes here", none⟩] ∧
      (transformPipelineResponse exRespChunks).map (fun c => c.text) =
        [cleanText "structured content goes here".data]) ∧
    (md500.length = 500 ∧ (transformPipelineResponse exRespMd).length = 2) := by
  have hsel : ∀ r : PipelineResponse,
      transformPipelineResponse r =
        match selectedStrategy r with
        | some s => runStrategy s r
        | none => [] := by
    intro r
    rw [transformPipelineResponse, selectedStrategy]
    by_cases h1 : (resultChunks r).elim false fun cs => !cs.isEmpty
    · rw [if_pos h1, if_pos h1]
      rfl
    · rw [if_neg h1, if_neg h1]
      by_cases h2 : (resultBlocks r).elim false fun bs => !bs.isEmpty
      · rw [if_pos h2, if_pos h2]
        rfl
      · rw [if_neg h2, if_neg h2]
        by_cases h3 : (r.chunks).isSome
        · rw [if_pos h3, if_pos h3]
          rfl
        · rw [if_neg h3, if_neg h3]
          rcases hf : firstText r with _ | t
          · simp [hf]
          · simp [hf, runStrategy]
  refine ⟨hsel, ?_, ?_, ?_⟩
  · intro r cs hcs hne
    rw [transformPipelineResponse, hcs]
    rw [if_pos (by simpa using hne)]
    rfl
  · constructor
    · rfl
    · rfl
  · exact ⟨by decide, by decide⟩

/-- C5 counterexample: an empty top-level `chunks` array next to a markdown
blob selects the (empty) chunk-list strategy, although the markdown strategy
would have produced two chunks — so "the first strategy that yields
non-empty structured data" is not what the code implements. -/
theorem C5_counterexample_empty_chunks_shadow_markdown :
    transformPipelineResponse exRespEmptyChunks = [] ∧
    selectedStrategy exRespEmptyChunks = some Strategy.topChunks ∧
    (runFormat4 md500).length = 2 := by
  refine ⟨rfl, rfl, by decide⟩

/-- C5 witness: the exclusive-chunks-path conjunct applied to the concrete
response that carries both shapes. -/
theorem C5_witness :
    transformPipelineResponse exRespChunks =
      runFormat1 [⟨"structured content goes here", none⟩] :=
  C5_normalizer_single_strategy.2.1 exRespChunks
    [⟨"structured content goes here", none⟩] rfl (by simp)

/-! ## Pipeline orchestrator (orchestrate/index.ts) and the voyage-embed
batch loop (reducto-parse/index.ts, second compilation unit)

External HTTP calls are oracles.  The code distinguishes a non-2xx response
(`!response.ok`, handled per call site) from a rejected promise / thrown
exception (caught by the surrounding `try`), so a call outcome is one of
`ok` (with the response envelope's optional `data`), `httpError`, `threw`. -/

/-- Outcome of one external call as observed by the orchestrator. -/
inductive CallResult (α : Type) where
  | ok (data : Option α)
  | httpError (msg : String)
  | threw (msg : String)
deriving DecidableEq

/-- A discovery result row (`FirecrawlDiscoveryResult`, fields the
orchestrator reads plus the descriptive ones; the nested `metadata` record is
never consulted downstream and is omitted). -/
structure DiscoveredPdf where
  url : String
  title : String
  file_number : String
  attachment_type : String
  discovered_at : String
deriving DecidableEq

/-- The `data` payload of a reducto-parse response
(`ReductoParseResult`, the fields the orchestrator reads). -/
structure ParseData where
  chunks : List ReductoChunk
  parsed_at : String
deriving DecidableEq

/-- Metadata of an orchestrator chunk:
`{...chunk.metadata, discovered_at: pdf.discovered_at, parsed_at: parseResult.data?.parsed_at}`. -/
structure OMeta where
  section_ : Option (List Char)
  table_detected : Bool
  discovered_at : String
  parsed_at : Option String
deriving DecidableEq

/-- An `allChunks` element of `runPipelineSync`. -/
structure OChunk where
  text : List Char
  file_number : String
  source_url : String
  page_number : ℚ
  bbox : BBox
  chunk_index : ℕ
  metadata : OMeta
deriving DecidableEq

/-- A chunk as sent to voyage-embed (no `file_number`/`source_url`). -/
structure EmbedReqChunk where
  text : List Char
  page_number : ℚ
  bbox : BBox
  chunk_index : ℕ
  metadata : OMeta
deriving DecidableEq

/-- An embedded chunk (`EmbeddedChunk` of voyage-embed): the request chunk
plus `embedding`, `file_number`, `source_url`. -/
structure EChunk where
  text : List Char
  page_number : ℚ
  bbox : BBox
  chunk_index : ℕ
  metadata : OMeta
  embedding : List ℚ
  file_number : String
  source_url : String
deriving DecidableEq

/-- The `data` payload of a mongo-upsert response (`UpsertResponse`). -/
structure UpsertResp where
  upserted_count : ℕ
  modified_count : ℕ
deriving DecidableEq

/-- Job status (`PipelineJob.status` of `_shared/types.ts`). -/
inductive JobStatus where
  | pending
  | discovering
  | parsing
  | embedding
  | upserting
  | completed
  | failed
deriving DecidableEq

/-- `PipelineJob` (`_shared/types.ts`). -/
structure PipelineJob where
  job_id : String
  status : JobStatus
  file_numbers : List String
  discovered_pdfs : List DiscoveredPdf
  parsed_chunks : ℕ
  embedded_chunks : ℕ
  upserted_chunks : ℕ
  started_at : String
  completed_at : Option String
  error : Option String
deriving DecidableEq

/-- The orchestrator's response envelope for `run_pipeline`
(`createResponse` applied to `{job, message?}` and an optional error):
`success = !error` (the empty string is falsy), `data` is set whenever a
payload object is passed (objects are truthy), `error` is set only when the
message is a non-empty string. -/
structure OrchResponse where
  success : Bool
  job : Option PipelineJob
  message : Option String
  error : Option String
deriving DecidableEq

/-- `createResponse` (utils.ts) specialized to the pipeline payload. -/
def createResponseM (data : Option (PipelineJob × Option String))
    (error : Option String) : OrchResponse :=
  { success := match error with | none => true | some s => s = ""
    job := data.map (·.1)
    message := data.bind (·.2)
    error := match error with
      | none => none
      | some s => if s = "" then none else some s }

/-- The external world of one `runPipelineSync` invocation: one oracle per
call site (parse indexed by the position in the discovered list, embed by the
group position), plus the timestamps taken during the run (the run stamps
`started_at` once at job creation and `completed_at` once at termination). -/
structure PipelineEnv where
  discover : CallResult (List DiscoveredPdf)
  parse : ℕ → CallResult ParseData
  embed : ℕ → CallResult (List EChunk)
  upsert : CallResult UpsertResp
  startedAt : String
  completedAt : String

/-- The parsing loop of `runPipelineSync`: a non-ok parse response is logged
and skipped (`continue`), an ok response appends the document's chunks tagged
with the pdf's `file_number`/`url` and the merged metadata, and a thrown
exception aborts the loop carrying the chunks accumulated so far (the
incrementally updated `job.parsed_chunks`). -/
def parseStage (parse : ℕ → CallResult ParseData) :
    List (ℕ × DiscoveredPdf) → List OChunk → Except (String × List OChunk) (List OChunk)
  | [], acc => .ok acc
  | (i, pdf) :: rest, acc =>
    match parse i with
    | .threw msg => .error (msg, acc)
    | .httpError _ => parseStage parse rest acc
    | .ok data =>
      let chunks := (data.map (·.chunks)).getD []
      let newChunks := chunks.map fun c =>
        { text := c.text
          file_number := pdf.file_number
          source_url := pdf.url
          page_number := c.page_number
          bbox := c.bbox
          chunk_index := c.chunk_index
          metadata :=
            { section_ := c.metadata.section_
              table_detected := c.metadata.table_detected
              discovered_at := pdf.discovered_at
              parsed_at := data.map (·.parsed_at) } : OChunk }
      parseStage parse rest (acc ++ newChunks)

/-- `` `${chunk.file_number}:${chunk.source_url}` ``. -/
def groupKey (c : OChunk) : String := c.file_number ++ ":" ++ c.source_url

/-- `chunksBySource`: a JS `Map` preserves key insertion order; each chunk is
appended to its key's bucket. -/
def groupByKey (chunks : List OChunk) : List (String × List OChunk) :=
  chunks.foldl (fun acc c =>
    if acc.any fun kv => kv.1 = groupKey c then
      acc.map fun kv => if kv.1 = groupKey c then (kv.1, kv.2 ++ [c]) else kv
    else acc ++ [(groupKey c, [c])]) []

/-- The embedding loop of `runPipelineSync`: a non-ok embed response is
logged and the whole group skipped (`continue`), an ok response appends the
returned embedded chunks, and a thrown exception aborts the loop carrying
the chunks accumulated so far. -/
def embedStage (embed : ℕ → CallResult (List EChunk)) :
    List (ℕ × String × List OChunk) → List EChunk →
    Except (String × List EChunk) (List EChunk)
  | [], acc => .ok acc
  | (g, _, _) :: rest, acc =>
    match embed g with
    | .threw msg => .error (msg, acc)
    | .httpError _ => embedStage embed rest acc
    | .ok data => embedStage embed rest (acc ++ data.getD [])

/-- The fresh job record created at the top of `runPipelineSync`. -/
def initialJob (env : PipelineEnv) (jobId : String) (fileNumbers : Option (List String)) :
    PipelineJob :=
  { job_id := jobId
    status := .discovering
    file_numbers := fileNumbers.getD []
    discovered_pdfs := []
    parsed_chunks := 0
    embedded_chunks := 0
    upserted_chunks := 0
    started_at := env.startedAt
    completed_at := none
    error := none }

/-- The `try` body of `runPipelineSync`: either a terminal `(job, message)`
pair, or a thrown error message together with the job state (counters and
status included) at the moment of the throw.  Mirrors the source: discovery
(non-ok wrapped in `throw`), the zero-PDF short circuit, the parse loop, the
zero-chunk short circuit, grouping, the embed loop, and the upsert call
(non-ok wrapped in `throw`). -/
def runPipelineInner (env : PipelineEnv) (job₀ : PipelineJob) :
    Except (String × PipelineJob) (PipelineJob × String) :=
  match env.discover with
  | .threw msg => .error (msg, job₀)
  | .httpError body => .error ("Discovery failed: " ++ body, job₀)
  | .ok ddata =>
    let pdfs := ddata.getD []
    let job₁ := { job₀ with discovered_pdfs := pdfs }
    if pdfs.isEmpty then
      .ok ({ job₁ with status := .completed, completed_at := some env.completedAt },
        "Pipeline complete. No PDFs found to process.")
    else
      let job₂ := { job₁ with status := .parsing }
      match parseStage env.parse pdfs.enum [] with
      | .error ea => .error (ea.1, { job₂ with parsed_chunks := ea.2.length })
      | .ok allChunks =>
        let job₃ := { job₂ with parsed_chunks := allChunks.length }
        if allChunks.isEmpty then
          .ok ({ job₃ with status := .completed, completed_at := some env.completedAt },
            "Pipeline complete. No chunks extracted from PDFs.")
        else
          let job₄ := { job₃ with status := .embedding }
          match embedStage env.embed (groupByKey allChunks).enum [] with
          | .error ea => .error (ea.1, { job₄ with embedded_chunks := ea.2.length })
          | .ok embedded =>
            let job₅ := { job₄ with embedded_chunks := embedded.length, status := .upserting }
            match env.upsert with
            | .threw msg => .error (msg, job₅)
            | .httpError body => .error ("Upsert failed: " ++ body, job₅)
            | .ok udata =>
              let upserted := (udata.map (·.upserted_count)).getD 0
              .ok ({ job₅ with
                      upserted_chunks := upserted
                      status := .completed
                      completed_at := some env.completedAt },
                "Pipeline complete! Processed " ++ toString job₅.discovered_pdfs.length ++
                  " PDFs, " ++ toString upserted ++ " chunks stored.")

/-- `runPipelineSync` (orchestrate/index.ts): run the body; on success answer
`createResponse({job, message}, null)`, and in the `catch` mark the job
failed, record the error message and a completion timestamp — preserving the
counters accumulated so far — and answer `createResponse({job}, message)`. -/
def runPipelineSync (env : PipelineEnv) (jobId : String)
    (fileNumbers : Option (List String)) : OrchResponse :=
  match runPipelineInner env (initialJob env jobId fileNumbers) with
  | .ok jm => createResponseM (some (jm.1, some jm.2)) none
  | .error ej =>
    createResponseM
      (some ({ ej.2 with
               status := .failed
               error := some ej.1
               completed_at := some env.completedAt }, none))
      (some ej.1)

/-! ### voyage-embed: the per-batch embedding loop with bounded retries -/

/-- One element of the Voyage response's `data` array. -/
structure VoyageItem where
  index : ℕ
  embedding : List ℚ
deriving DecidableEq

/-- `retryWithBackoff` (utils.ts) recursion: try `attempts 0, 1, …` up to the
bounded count, returning the first success or throwing the last error.  The
initial `"null"` models the `lastError = null` thrown when `maxRetries = 0`
(unreachable: callers use the default 3). -/
def retryAux {α : Type} (attempts : ℕ → Except String α) :
    ℕ → ℕ → String → Except String α
  | 0, _, lastErr => .error lastErr
  | fuel + 1, i, lastErr =>
    match attempts i with
    | .ok a => .ok a
    | .error e =>
      -- the exponential backoff delay has no observable effect in this model
      have : lastErr = lastErr := rfl
      retryAux attempts fuel (i + 1) e

/-- `retryWithBackoff(operation, maxRetries)` with attempt outcomes given by
the oracle `attempts`. -/
def retryWithBackoff {α : Type} (attempts : ℕ → Except String α) (maxRetries : ℕ) :
    Except String α :=
  retryAux attempts maxRetries 0 "null"

/-- `batch[item.index]` is `undefined` when the Voyage response carries an
out-of-range index; the spread of `undefined` then yields a chunk with only
the three explicitly assigned fields.  That corner is modelled by an empty
default chunk (unreachable for well-formed responses). -/
def emptyEmbedReqChunk : EmbedReqChunk :=
  { text := [], page_number := 0, bbox := ⟨0, 0, 0, 0⟩, chunk_index := 0,
    metadata := { section_ := none, table_detected := false,
                  discovered_at := "", parsed_at := none } }

/-- `{...originalChunk, embedding: item.embedding, file_number, source_url}`. -/
def embedItem (c : EmbedReqChunk) (emb : List ℚ) (fn su : String) : EChunk :=
  { text := c.text, page_number := c.page_number, bbox := c.bbox,
    chunk_index := c.chunk_index, metadata := c.metadata,
    embedding := emb, file_number := fn, source_url := su }

/-- The batch loop of the voyage-embed handler: batches processed in order;
a batch whose `retryWithBackoff` ultimately fails throws, which the handler's
`catch` turns into an error response for the whole call — succeeding earlier
batches of the same call are lost with it. -/
def voyageBatches (attempts : ℕ → ℕ → Except String (List VoyageItem))
    (fn su : String) :
    List (ℕ × List EmbedReqChunk) → List EChunk → Except String (List EChunk)
  | [], acc => .ok acc
  | (bi, batch) :: rest, acc =>
    match retryWithBackoff (attempts bi) 3 with
    | .error e => .error e
    | .ok items =>
      voyageBatches attempts fn su rest
        (acc ++ items.map fun it =>
          embedItem (batch.getD it.index emptyEmbedReqChunk) it.embedding fn su)

/-- The voyage-embed `serve` body from request validation to the embedded
chunk list (`VOYAGE_BATCH_SIZE = 128`): an `Except.error` is the error
response the orchestrator observes as a non-ok HTTP status. -/
def voyageEmbedServe (attempts : ℕ → ℕ → Except String (List VoyageItem))
    (chunks : List EmbedReqChunk) (fn su : String) : Except String (List EChunk) :=
  if chunks.isEmpty then .error "Missing or empty chunks array"
  else voyageBatches attempts fn su (chunkArray chunks 128).enum []

/-- C7: a run whose discovery returns zero documents terminates immediately
and successfully: status `completed`, no discovered PDFs, all chunk counters
zero, a completion timestamp, no error field — delivered in a well-formed
success response with the human-readable short-circuit message. -/
theorem C7_zero_documents_short_circuit (env : PipelineEnv) (jobId : String)
    (fns : Option (List String)) (ddata : Option (List DiscoveredPdf))
    (hd : env.discover = .ok ddata) (hempty : ddata.getD [] = []) :
    runPipelineSync env jobId fns =
      { success := true
        job := some
          { job_id := jobId
            status := .completed
            file_numbers := fns.getD []
            discovered_pdfs := []
            parsed_chunks := 0
            embedded_chunks := 0
            upserted_chunks := 0
            started_at := env.startedAt
            completed_at := some env.completedAt
            error := none }
        message := some "Pipeline complete. No PDFs found to process."
        error := none } := by
  rw [runPipelineSync, runPipelineInner, hd]
  simp [hempty, initialJob, createResponseM]

/-- Concrete environment whose discovery finds nothing. -/
def envC7 : PipelineEnv :=
  { discover := .ok (some [])
    parse := fun _ => .httpError "unreached"
    embed := fun _ => .httpError "unreached"
    upsert := .httpError "unreached"
    startedAt := "t0"
    completedAt := "t1" }

/-- C7 witness: the zero-document short circuit on a concrete environment. -/
theorem C7_witness :
    runPipelineSync envC7 "job1" none =
      { success := true
        job := some
          { job_id := "job1"
            status := .completed
            file_numbers := []
            discovered_pdfs := []
            parsed_chunks := 0
            embedded_chunks := 0
            upserted_chunks := 0
            started_at := "t0"
            completed_at := some "t1"
            error := none }
        message := some "Pipeline complete. No PDFs found to process."
        error := none } :=
  C7_zero_documents_short_circuit envC7 "job1" none (some []) rfl rfl

/-- The job state at the upsert call for a run that reached it. -/
def jobAtUpsert (env : PipelineEnv) (jobId : String) (fns : Option (List String))
    (pdfs : List DiscoveredPdf) (parsed embedded : ℕ) : PipelineJob :=
  { initialJob env jobId fns with
    discovered_pdfs := pdfs
    parsed_chunks := parsed
    embedded_chunks := embedded
    status := .upserting }

/-- Characterization of the `try` body for a run that passes discovery,
parsing and embedding without a thrown exception: it reduces to the upsert
call on the accumulated job state. -/
theorem runPipelineInner_at_upsert (env : PipelineEnv) (jobId : String)
    (fns : Option (List String)) (ddata : Option (List DiscoveredPdf))
    (allChunks : List OChunk) (embedded : List EChunk)
    (hd : env.discover = .ok ddata) (hne : ddata.getD [] ≠ [])
    (hp : parseStage env.parse (ddata.getD []).enum [] = .ok allChunks)
    (hcne : allChunks ≠ [])
    (he : embedStage env.embed (groupByKey allChunks).enum [] = .ok embedded) :
    runPipelineInner env (initialJob env jobId fns) =
      (match env.upsert with
       | .threw msg =>
         .error (msg, jobAtUpsert env jobId fns (ddata.getD [])
           allChunks.length embedded.length)
       | .httpError body =>
         .error ("Upsert failed: " ++ body, jobAtUpsert env jobId fns (ddata.getD [])
           allChunks.length embedded.length)
       | .ok udata =>
         .ok ({ jobAtUpsert env jobId fns (ddata.getD []) allChunks.length embedded.length
                  with
                upserted_chunks := (udata.map (·.upserted_count)).getD 0
                status := .completed
                completed_at := some env.completedAt },
           "Pipeline complete! Processed " ++ toString (ddata.getD []).length ++
             " PDFs, " ++ toString ((udata.map (·.upserted_count)).getD 0) ++
             " chunks stored.")) := by
  rw [runPipelineInner, hd]
  simp only [List.isEmpty_iff, hne, if_neg, hp, hcne, he, jobAtUpsert]
  rcases env.upsert with udata | body | msg <;> rfl

theorem upsertMsg_ne_empty (body : String) : ("Upsert failed: " ++ body) ≠ "" := by
  intro h
  have hlen := congrArg String.length h
  rw [String.length_append] at hlen
  rw [show ("Upsert failed: " : String).length = 15 from rfl,
    show ("" : String).length = 0 from rfl] at hlen
  omega

/-- C8: an unhandled error thrown by a stage call moves the job to `failed`,
records the error message and a completion timestamp, preserves every
counter accumulated before the failure, and still delivers a well-formed
response carrying that job: (i) the general catch behaviour for any throw
point, (ii) a discovery-stage throw (all counters still zero), and (iii) an
upsert-stage failure, where the discovered/parsed/embedded counters of the
whole run survive in the failed job. -/
theorem C8_failure_to_failed_preserving_counters :
    (∀ (env : PipelineEnv) (jobId : String) (fns : Option (List String))
        (msg : String) (j : PipelineJob),
      runPipelineInner env (initialJob env jobId fns) = .error (msg, j) →
      runPipelineSync env jobId fns =
        createResponseM (some ({ j with
          status := .failed
          error := some msg
          completed_at := some env.completedAt }, none)) (some msg) ∧
      (runPipelineSync env jobId fns).job =
        some { j with
          status := .failed
          error := some msg
          completed_at := some env.completedAt }) ∧
    (∀ (env : PipelineEnv) (jobId : String) (fns : Option (List String)) (msg : String),
      env.discover = .threw msg →
      runPipelineSync env jobId fns =
        createResponseM (some ({ initialJob env jobId fns with
          status := .failed
          error := some msg
          completed_at := some env.completedAt }, none)) (some msg)) ∧
    (∀ (env : PipelineEnv) (jobId : String) (fns : Option (List String))
        (ddata : Option (List DiscoveredPdf)) (allChunks : List OChunk)
        (embedded : List EChunk) (body : String),
      env.discover = .ok ddata → ddata.getD [] ≠ [] →
      parseStage env.parse (ddata.getD []).enum [] = .ok allChunks → allChunks ≠ [] →
      embedStage env.embed (groupByKey allChunks).enum [] = .ok embedded →
      env.upsert = .httpError body →
      runPipelineSync env jobId fns =
        { success := false
          job := some
            { job_id := jobId
              status := .failed
              file_numbers := fns.getD []
              discovered_pdfs := ddata.getD []
              parsed_chunks := allChunks.length
              embedded_chunks := embedded.length
              upserted_chunks := 0
              started_at := env.startedAt
              completed_at := some env.completedAt
              error := some ("Upsert failed: " ++ body) }
          message := none
          error := some ("Upsert failed: " ++ body) }) := by
  refine ⟨?_, ?_, ?_⟩
  · intro env jobId fns msg j h
    rw [runPipelineSync, h]
    exact ⟨rfl, by simp [createResponseM]⟩
  · intro env jobId fns msg h
    rw [runPipelineSync, runPipelineInner, h]
  · intro env jobId fns ddata allChunks embedded body hd hne hp hcne he hu
    rw [runPipelineSync, runPipelineInner_at_upsert env jobId fns ddata allChunks embedded
      hd hne hp hcne he, hu]
    simp only [createResponseM, jobAtUpsert, initialJob]
    rw [if_neg (upsertMsg_ne_empty body)]
    refine congrArg₂ _ ?_ rfl
    · simp [upsertMsg_ne_empty body]

/-- The embedded chunks a run accumulates: each group whose embed call
returns ok contributes exactly its returned chunks, in group order; groups
whose call fails contribute nothing. -/
def okEmbedChunks (embed : ℕ → CallResult (List EChunk)) :
    List (ℕ × String × List OChunk) → List EChunk
  | [] => []
  | gt :: rest =>
    (match embed gt.1 with
     | .ok data => data.getD []
     | _ => []) ++ okEmbedChunks embed rest

/-- C6 (amended): per-batch embedding failure is contained at the *group*
level, not the batch level. (a) The orchestrator's embedding loop never
fails the run when no call throws: each group whose voyage-embed call
succeeded contributes exactly its chunks and each failed group contributes
nothing. (b) Inside one voyage-embed call, a batch that exhausts its three
retries makes the whole call error out — dropping the group's already
embedded earlier batches with it. (c) Such failures are not fatal: a run
whose embed calls do not throw proceeds to upsert whatever embedded and
completes. -/
theorem C6_partial_embedding_containment :
    (∀ (embed : ℕ → CallResult (List EChunk))
        (groups : List (ℕ × String × List OChunk)) (acc : List EChunk),
      (∀ gt ∈ groups, ∀ m, embed gt.1 ≠ .threw m) →
      embedStage embed groups acc = .ok (acc ++ okEmbedChunks embed groups)) ∧
    (∀ (attempts : ℕ → ℕ → Except String (List VoyageItem)) (fn su : String)
        (pre : List (ℕ × List EmbedReqChunk)) (bi : ℕ)
        (batch : List EmbedReqChunk) (rest : List (ℕ × List EmbedReqChunk))
        (acc : List EChunk) (e : String),
      (∀ pb ∈ pre, ∃ items, retryWithBackoff (attempts pb.1) 3 = .ok items) →
      retryWithBackoff (attempts bi) 3 = .error e →
      voyageBatches attempts fn su (pre ++ (bi, batch) :: rest) acc = .error e) ∧
    (∀ (env : PipelineEnv) (jobId : String) (fns : Option (List String))
        (ddata : Option (List DiscoveredPdf)) (allChunks : List OChunk)
        (embedded : List EChunk) (udata : Option UpsertResp),
      env.discover = .ok ddata → ddata.getD [] ≠ [] →
      parseStage env.parse (ddata.getD []).enum [] = .ok allChunks → allChunks ≠ [] →
      embedStage env.embed (groupByKey allChunks).enum [] = .ok embedded →
      env.upsert = .ok udata →
      runPipelineSync env jobId fns =
        { success := true
          job := some
            { job_id := jobId
              status := .completed
              file_numbers := fns.getD []
              discovered_pdfs := ddata.getD []
              parsed_chunks := allChunks.length
              embedded_chunks := embedded.length
              upserted_chunks := (udata.map (·.upserted_count)).getD 0
              started_at := env.startedAt
              completed_at := some env.completedAt
              error := none }
          message := some ("Pipeline complete! Processed " ++
            toString (ddata.getD []).length ++ " PDFs, " ++
            toString ((udata.map (·.upserted_count)).getD 0) ++ " chunks stored.")
          error := none }) := by
  refine ⟨?_, ?_, ?_⟩
  · intro embed groups
    induction groups with
    | nil => intro acc _; simp [embedStage, okEmbedChunks]
    | cons gt rest ih =>
      intro acc hno
      obtain ⟨g, key, cs⟩ := gt
      rw [embedStage, okEmbedChunks]
      rcases hg : embed g with data | m | m
      · have hrest := ih (acc ++ data.getD []) fun x hx m => hno x (List.mem_cons_of_mem _ hx) m
        simpa [List.append_assoc] using hrest
      · have hrest := ih acc fun x hx m => hno x (List.mem_cons_of_mem _ hx) m
        simpa using hrest
      · exact absurd hg (hno (g, key, cs) (by simp) m)
  · intro attempts fn su pre
    induction pre with
    | nil =>
      intro bi batch rest acc e _ hfail
      rw [List.nil_append, voyageBatches, hfail]
    | cons pb pre' ih =>
      intro bi batch rest acc e hpre hfail
      obtain ⟨pbi, pbatch⟩ := pb
      rw [List.cons_append, voyageBatches]
      obtain ⟨items, hitems⟩ := hpre (pbi, pbatch) (by simp)
      rw [hitems]
      exact ih bi batch rest _ e (fun x hx => hpre x (List.mem_cons_of_mem _ hx)) hfail
  · intro env jobId fns ddata allChunks embedded udata hd hne hp hcne he hu
    rw [runPipelineSync, runPipelineInner_at_upsert env jobId fns ddata allChunks embedded
      hd hne hp hcne he, hu]
    simp [createResponseM, jobAtUpsert, initialJob]

/-! ### Concrete pipeline material for the orchestrator witnesses -/

def pdfX : DiscoveredPdf :=
  { url := "u", title := "T", file_number := "F", attachment_type := "A",
    discovered_at := "d0" }

def pdfY : DiscoveredPdf :=
  { url := "u2", title := "T2", file_number := "F", attachment_type := "A",
    discovered_at := "d0" }

def rchunkX : ReductoChunk :=
  { text := "sample chunk".data, page_number := 1, bbox := ⟨0, 0, 612, 792⟩,
    chunk_index := 0, metadata := { section_ := none, table_detected := false } }

def ochunkX : OChunk :=
  { text := "sample chunk".data, file_number := "F", source_url := "u",
    page_number := 1, bbox := ⟨0, 0, 612, 792⟩, chunk_index := 0,
    metadata := { section_ := none, table_detected := false,
                  discovered_at := "d0", parsed_at := some "p0" } }

def ochunkY : OChunk :=
  { text := "sample chunk".data, file_number := "F", source_url := "u2",
    page_number := 1, bbox := ⟨0, 0, 612, 792⟩, chunk_index := 0,
    metadata := { section_ := none, table_detected := false,
                  discovered_at := "d0", parsed_at := some "p0" } }

def echunkX : EChunk :=
  { text := "sample chunk".data, page_number := 1, bbox := ⟨0, 0, 612, 792⟩,
    chunk_index := 0,
    metadata := { section_ := none, table_detected := false,
                  discovered_at := "d0", parsed_at := some "p0" },
    embedding := [1], file_number := "F", source_url := "u" }

/-- Environment reaching the upsert stage and failing there. -/
def envC8 : PipelineEnv :=
  { discover := .ok (some [pdfX])
    parse := fun _ => .ok (some { chunks := [rchunkX], parsed_at := "p0" })
    embed := fun _ => .ok (some [echunkX])
    upsert := .httpError "boom"
    startedAt := "t0"
    completedAt := "t1" }

/-- C8 witness: a concrete run whose upsert call fails — the job comes back
`failed` with the discovered/parsed/embedded counters intact. -/
theorem C8_witness :
    runPipelineSync envC8 "j8" none =
      { success := false
        job := some
          { job_id := "j8"
            status := .failed
            file_numbers := []
            discovered_pdfs := [pdfX]
            parsed_chunks := 1
            embedded_chunks := 1
            upserted_chunks := 0
            started_at := "t0"
            completed_at := some "t1"
            error := some ("Upsert failed: " ++ "boom") }
        message := none
        error := some ("Upsert failed: " ++ "boom") } :=
  C8_failure_to_failed_preserving_counters.2.2 envC8 "j8" none (some [pdfX])
    [ochunkX] [echunkX] "boom" rfl (by simp) rfl (by simp) rfl rfl

/-- Environment in which one of two document groups fails to embed (HTTP
error from voyage-embed) while the other succeeds and the upsert goes
through. -/
def envC6 : PipelineEnv :=
  { discover := .ok (some [pdfX, pdfY])
    parse := fun _ => .ok (some { chunks := [rchunkX], parsed_at := "p0" })
    embed := fun g => if g = 0 then .ok (some [echunkX])
      else .httpError "Voyage API error: 429 - rate limited"
    upsert := .ok (some { upserted_count := 1, modified_count := 0 })
    startedAt := "t0"
    completedAt := "t1" }

/-- C6 witness: the containment theorem's completion conjunct on a concrete
run in which one group's embedding failed — the run completes, upserting the
surviving group's chunk. -/
theorem C6_witness :
    runPipelineSync envC6 "j6" none =
      { success := true
        job := some
          { job_id := "j6"
            status := .completed
            file_numbers := []
            discovered_pdfs := [pdfX, pdfY]
            parsed_chunks := 2
            embedded_chunks := 1
            upserted_chunks := 1
            started_at := "t0"
            completed_at := some "t1"
            error := none }
        message := some ("Pipeline complete! Processed " ++ toString 2 ++
          " PDFs, " ++ toString 1 ++ " chunks stored.")
        error := none } :=
  C6_partial_embedding_containment.2.2 envC6 "j6" none (some [pdfX, pdfY])
    [ochunkX, ochunkY] [echunkX] (some { upserted_count := 1, modified_count := 0 })
    rfl (by simp) rfl (by simp) rfl rfl

/-! ### C6 counterexample material: a 129-chunk group needing two batches -/

def reqChunkC6 (i : ℕ) : EmbedReqChunk :=
  { text := (toString i).data, page_number := 1, bbox := ⟨0, 0, 612, 792⟩,
    chunk_index := i,
    metadata := { section_ := none, table_detected := false,
                  discovered_at := "d0", parsed_at := none } }

/-- 129 chunks: one full batch of 128 plus one more. -/
def bigGroupChunks : List EmbedReqChunk := (List.range 129).map reqChunkC6

/-- Per-batch attempt oracle: every attempt of batch 0 succeeds, every
attempt of any later batch fails with a 429. -/
def attemptsC6 : ℕ → ℕ → Except String (List VoyageItem) := fun bi _ =>
  if bi = 0 then .ok ((List.range 128).map fun j => { index := j, embedding := [1] })
  else .error "Voyage API error: 429 - rate limited"

def echunkA6 : EChunk :=
  { text := "other group".data, page_number := 1, bbox := ⟨0, 0, 612, 792⟩,
    chunk_index := 0,
    metadata := { section_ := none, table_detected := false,
                  discovered_at := "d0", parsed_at := none },
    embedding := [2], file_number := "F", source_url := "u0" }

/-- Orchestrator embed oracle: group 0 embeds fine, group 1 is the big group
whose voyage-embed call is the one modelled above (its error response is the
non-ok HTTP status the orchestrator sees). -/
def embedC6 : ℕ → CallResult (List EChunk) := fun g =>
  if g = 0 then .ok (some [echunkA6])
  else
    match voyageEmbedServe attemptsC6 bigGroupChunks "F" "u" with
    | .ok cs => .ok (some cs)
    | .error e => .httpError e

/-- C6 counterexample: batch 0 of the two-batch group embeds successfully
(first conjunct), yet when batch 1 exhausts its retries the whole
voyage-embed call fails (second conjunct), so at the orchestrator the
group's chunks — the 128 successfully embedded ones included — are all
absent from the embedded set, which keeps only the other group's chunk
(third conjunct).  This refutes "only that batch's chunks are dropped …
earlier batches of the same document group remain embedded". -/
theorem C6_counterexample_whole_group_dropped :
    retryWithBackoff (attemptsC6 0) 3 =
      .ok ((List.range 128).map fun j => { index := j, embedding := [1] }) ∧
    voyageEmbedServe attemptsC6 bigGroupChunks "F" "u" =
      .error "Voyage API error: 429 - rate limited" ∧
    embedStage embedC6 [(0, "F:u0", []), (1, "F:u", [])] [] = .ok [echunkA6] := by
  refine ⟨rfl, ?_, rfl⟩
  rfl

end MunicipalCompliance
